import Mathlib

/-!
# The SQLite backend of mosquitto-auth-plug (be-sqlite.c)

A shallow embedding of `be-sqlite.c`.  The database engine, the topic template
expander and the broker's topic matcher are collaborators outside the file:

* the engine is a value `Db` holding the result codes it is going to hand out
  (a queue for prepare / reset / clear-bindings / bind / open, a queue for
  step) and the record of every call made so far;
* `t_expand` and `mosquitto_topic_matches_sub` are the two fields of `Host`.

C strings are `String`, a possibly null `char *` is `Option String`, `NULL`
handles are `none`.
-/

namespace BeSqlite

/-! ## Result codes of the engine (sqlite3.h) -/

/-- Successful result. -/
def SQLITE_OK : Nat := 0
/-- Generic error. -/
def SQLITE_ERROR : Nat := 1
/-- The database file is locked. -/
def SQLITE_BUSY : Nat := 5
/-- Library used incorrectly. -/
def SQLITE_MISUSE : Nat := 21
/-- The step has another row ready. -/
def SQLITE_ROW : Nat := 100
/-- The step has finished executing. -/
def SQLITE_DONE : Nat := 101

/-- Modelled from the spec: the verdict codes `BACKEND_ALLOW`, `BACKEND_DEFER`
and `BACKEND_ERROR` of backends.h, a three-valued enum. -/
inductive Verdict where
  | allow
  | defer
  | error
  deriving DecidableEq, Repr

/-- Which of the two prepared query handles of an instance a call concerns:
`conf->user` or `conf->acl`. -/
inductive Slot where
  | user
  | acl
  deriving DecidableEq, Repr

/-- One call made to a collaborator (the engine, the expander, the matcher). -/
inductive Call where
  | open_v2 (dbpath : String)
  | prepare (slot : Slot) (query : String) (len : Nat)
  | reset (slot : Slot)
  | clear_bindings (slot : Slot)
  | bind_text (slot : Slot) (idx : Nat) (text : String)
  | bind_int (slot : Slot) (idx : Nat) (value : Int)
  | step (slot : Slot) (rc : Nat)
  | column_text (slot : Slot) (col : Nat)
  | finalize (slot : Slot)
  | t_expand (clientid username pattern : String)
  | topic_matches_sub (sub topic : String)
  deriving DecidableEq, Repr

/-- What is known of a live `sqlite3_stmt`: whether it was stepped since its
last reset, and which parameter indices were bound since its bindings were last
cleared. -/
structure Stmt where
  stepped : Bool
  bound : List Nat
  deriving DecidableEq, Repr

/-- Modelled from the spec: `struct stmt_query` of be-sqlite.h, a query string,
its byte length and the parsed statement (`none` is `NULL`). -/
structure stmt_query where
  stmt : Option Stmt
  query : String
  query_length : Nat
  deriving DecidableEq, Repr

/-- Modelled from the spec: `struct sqlite_backend` of be-sqlite.h, the two
optional query handles; the connection `sq` is the `Db` threaded through every
function. -/
structure sqlite_backend where
  user : Option stmt_query
  acl : Option stmt_query
  deriving DecidableEq, Repr

/-- The engine as the plug-in sees it.  `rcs` are the result codes it will
return, in call order, to open / prepare / reset / clear-bindings / bind
(`SQLITE_OK` once the list is used up); `steps` are the results of the
successive `sqlite3_step` calls, each with the text of column 0 of the row it
produced (`SQLITE_DONE` once the list is used up); `log` records the calls
made so far, oldest first. -/
structure Db where
  rcs : List Nat
  steps : List (Nat × Option String)
  log : List Call
  deriving DecidableEq, Repr

/-- The host's collaborators: the template expander `t_expand (clientid,
username, pattern)`, whose result may be `NULL`, and the broker's
`mosquitto_topic_matches_sub (sub, topic)`. -/
structure Host where
  t_expand : String → String → String → Option String
  topic_matches_sub : String → String → Bool

/-- Record call `c` and take the next result code off the queue. -/
def Db.result (db : Db) (c : Call) : Nat × Db :=
  (db.rcs.headD SQLITE_OK, { db with rcs := db.rcs.tail, log := db.log ++ [c] })

/-- Record call `c`, which returns no result code. -/
def Db.record (db : Db) (c : Call) : Db :=
  { db with log := db.log ++ [c] }

/-! ## The engine's entry points -/

/-- `sqlite3_prepare`: on `SQLITE_OK` a fresh statement, otherwise `NULL`. -/
def sqlite3_prepare (db : Db) (slot : Slot) (query : String) (len : Nat) :
    Nat × Option Stmt × Db :=
  let r := db.result (.prepare slot query len)
  (r.1, if r.1 = SQLITE_OK then some { stepped := false, bound := [] } else none, r.2)

/-- `sqlite3_reset`: the statement is rewound whatever code is returned; a
harmless no-op on `NULL`. -/
def sqlite3_reset (db : Db) (slot : Slot) (stmt : Option Stmt) : Nat × Option Stmt × Db :=
  match stmt with
  | none => (SQLITE_OK, none, db.record (.reset slot))
  | some s =>
    let r := db.result (.reset slot)
    (r.1, some { s with stepped := false }, r.2)

/-- `sqlite3_clear_bindings`. -/
def sqlite3_clear_bindings (db : Db) (slot : Slot) (stmt : Option Stmt) :
    Nat × Option Stmt × Db :=
  match stmt with
  | none => (SQLITE_MISUSE, none, db.record (.clear_bindings slot))
  | some s =>
    let r := db.result (.clear_bindings slot)
    (r.1, some (if r.1 = SQLITE_OK then { s with bound := [] } else s), r.2)

/-- `sqlite3_bind_text (stmt, idx, text, -1, SQLITE_STATIC)`. -/
def sqlite3_bind_text (db : Db) (slot : Slot) (stmt : Option Stmt) (idx : Nat) (text : String) :
    Nat × Option Stmt × Db :=
  match stmt with
  | none => (SQLITE_MISUSE, none, db.record (.bind_text slot idx text))
  | some s =>
    let r := db.result (.bind_text slot idx text)
    (r.1, some (if r.1 = SQLITE_OK then { s with bound := idx :: s.bound } else s), r.2)

/-- `sqlite3_bind_int (stmt, idx, value)`. -/
def sqlite3_bind_int (db : Db) (slot : Slot) (stmt : Option Stmt) (idx : Nat) (value : Int) :
    Nat × Option Stmt × Db :=
  match stmt with
  | none => (SQLITE_MISUSE, none, db.record (.bind_int slot idx value))
  | some s =>
    let r := db.result (.bind_int slot idx value)
    (r.1, some (if r.1 = SQLITE_OK then { s with bound := idx :: s.bound } else s), r.2)

/-- `sqlite3_step`: the result code, the text of column 0 of the row produced
(read later through `sqlite3_column_text`), the statement and the engine. -/
def sqlite3_step (db : Db) (slot : Slot) (stmt : Option Stmt) :
    Nat × Option String × Option Stmt × Db :=
  match stmt with
  | none => (SQLITE_MISUSE, none, none, db.record (.step slot SQLITE_MISUSE))
  | some s =>
    let r := db.steps.headD (SQLITE_DONE, none)
    (r.1, r.2, some { s with stepped := true },
      { db with steps := db.steps.tail, log := db.log ++ [.step slot r.1] })

/-- `sqlite3_column_text (stmt, col)` on the row the last step produced. -/
def sqlite3_column_text (db : Db) (slot : Slot) (row : Option String) (col : Nat) :
    Option String × Db :=
  (row, db.record (.column_text slot col))

/-- `sqlite3_finalize`: a harmless no-op on `NULL`. -/
def sqlite3_finalize (db : Db) (slot : Slot) (_stmt : Option Stmt) : Nat × Db :=
  (SQLITE_OK, db.record (.finalize slot))

/-- `sqlite3_open_v2`. -/
def sqlite3_open_v2 (db : Db) (dbpath : String) : Nat × Db :=
  db.result (.open_v2 dbpath)

/-! ## be-sqlite.c -/

/-- `prepareStatement (conf, stmt)`, lines 42-49: the return value and the
handle with its `stmt` field overwritten by the engine. -/
def prepareStatement (db : Db) (slot : Slot) (q : stmt_query) : Bool × stmt_query × Db :=
  let r := sqlite3_prepare db slot q.query q.query_length
  (decide (r.1 = SQLITE_OK), { q with stmt := r.2.1 }, r.2.2)

/-- `be_sqlite_init`, lines 51-94.  The three arguments are the values of
`p_stab` for `dbpath`, `sqliteuserquery` and `sqliteaclquery`; `_fatal` is
followed by `return (NULL)` and is embedded as that return. -/
def be_sqlite_init (dbpath userquery aclquery : Option String) (db : Db) :
    Option sqlite_backend × Db :=
  match dbpath with
  | none => (none, db)
  | some path =>
    match userquery with
    | none => (none, db)
    | some uq =>
      let o := sqlite3_open_v2 db path
      if o.1 ≠ SQLITE_OK then (none, o.2)
      else
        let u := prepareStatement o.2 .user
          { stmt := none, query := uq, query_length := uq.utf8ByteSize }
        match aclquery with
        | none => (some { user := some u.2.1, acl := none }, u.2.2)
        | some aq =>
          let a := prepareStatement u.2.2 .acl
            { stmt := none, query := aq, query_length := aq.utf8ByteSize }
          (some { user := some u.2.1, acl := some a.2.1 }, a.2.2)

/-- How the statements that open a use cycle end: lines 129-150 of
`be_sqlite_getuser` and, on `conf->acl`, lines 196-217 of `be_sqlite_aclcheck`
(the same text in both functions). -/
inductive Setup where
  /-- The statement was absent and `prepareStatement` failed: `return BACKEND_ERROR`. -/
  | ret (q : stmt_query) (db : Db)
  /-- A reset, clear-bindings or bind failed: `result = BACKEND_ERROR; goto out`. -/
  | out (q : stmt_query) (db : Db)
  /-- The username is bound to parameter 1. -/
  | bound (q : stmt_query) (db : Db)
  deriving DecidableEq, Repr

/-- Lines 129-150 (on `conf->user`) and 196-217 (on `conf->acl`): prepare the
statement if it is absent, reset it, clear its bindings, bind `username` to
parameter 1. -/
def prologue (slot : Slot) (q : stmt_query) (db : Db) (username : String) : Setup :=
  let p := if q.stmt = none then prepareStatement db slot q else (true, q, db)
  if p.1 = false then .ret p.2.1 p.2.2
  else
    let rs := sqlite3_reset p.2.2 slot p.2.1.stmt
    if rs.1 ≠ SQLITE_OK then .out { p.2.1 with stmt := rs.2.1 } rs.2.2
    else
      let cl := sqlite3_clear_bindings rs.2.2 slot rs.2.1
      if cl.1 ≠ SQLITE_OK then .out { p.2.1 with stmt := cl.2.1 } cl.2.2
      else
        let bd := sqlite3_bind_text cl.2.2 slot cl.2.1 1 username
        if bd.1 ≠ SQLITE_OK then .out { p.2.1 with stmt := bd.2.1 } bd.2.2
        else .bound { p.2.1 with stmt := bd.2.1 } bd.2.2

/-- How the attempt loop of `be_sqlite_getuser` is left: by the
`return BACKEND_ERROR` of line 131, or towards the label `out` (a `goto out`, or
the loop condition turning false). -/
inductive LoopExit where
  | ret (user : stmt_query) (db : Db)
  | out (result : Verdict) (value : Option String) (user : stmt_query) (db : Db)
  deriving DecidableEq, Repr

/-- How one pass through the body of the attempt loop ends: the loop is left,
or its condition is evaluated again with these `value`, `result`,
`*conf->user` and engine. -/
inductive Attempt where
  | leave (e : LoopExit)
  | again (value : Option String) (result : Verdict) (user : stmt_query) (db : Db)
  deriving DecidableEq, Repr

/-- The body of the `for` loop of `be_sqlite_getuser`, lines 129-167. -/
def getuser_attempt (username : String) (value : Option String) (result : Verdict)
    (user : stmt_query) (db : Db) : Attempt :=
  match prologue .user user db username with
  | .ret q d => .leave (.ret q d)
  | .out q d => .leave (.out .error value q d)
  | .bound q d =>
    let st := sqlite3_step d .user q.stmt
    if st.1 = SQLITE_ROW then
      let v := sqlite3_column_text st.2.2.2 .user st.2.1 0
      .again (if v.1.isSome then v.1 else value) result { q with stmt := st.2.2.1 } v.2
    else if st.1 = SQLITE_ERROR then
      let f := sqlite3_finalize st.2.2.2 .user st.2.2.1
      .again value .error { q with stmt := none } f.2
    else .again value result { q with stmt := st.2.2.1 } st.2.2.2

/-- The `for` loop of `be_sqlite_getuser`, lines 128-168.  The first argument
is `retries` before the `--retries` of the loop condition (5 on entry); `value`
and `result` are the locals of that name, `user` is `*conf->user`. -/
def getuser_loop (username : String) :
    Nat → Option String → Verdict → stmt_query → Db → LoopExit
  | 0, value, result, user, db => .out result value user db
  | r + 1, value, result, user, db =>
    if 0 < r ∧ value = none then
      match getuser_attempt username value result user db with
      | .leave e => e
      | .again value1 result1 user1 db1 => getuser_loop username r value1 result1 user1 db1
    else .out result value user db

/-- What `be_sqlite_getuser` leaves behind: the returned verdict, the content
of `*phash`, the instance and the engine. -/
structure GetuserResult where
  result : Verdict
  phash : Option String
  handle : Option sqlite_backend
  db : Db
  deriving DecidableEq, Repr

/-- The two ways out of `be_sqlite_getuser` once the loop is left: the plain
`return BACKEND_ERROR` of line 131, which does not touch `*phash`, and the
label `out`, lines 170-174, which resets the statement and stores `value` in
`*phash`. -/
def getuser_out (conf : sqlite_backend) (phash : Option String) : LoopExit → GetuserResult
  | .ret user1 db1 =>
    { result := .error, phash := phash, handle := some { conf with user := some user1 },
      db := db1 }
  | .out result value user1 db1 =>
    let rs := sqlite3_reset db1 .user user1.stmt
    { result := result, phash := value,
      handle := some { conf with user := some { user1 with stmt := rs.2.1 } }, db := rs.2.2 }

/-- `be_sqlite_getuser`, lines 118-175.  `phash` is the content of `*phash` on
entry; the two plain `return` statements leave it as it is, the label `out`
stores `value` in it. -/
def be_sqlite_getuser (handle : Option sqlite_backend) (db : Db)
    (username _password : String) (phash : Option String) (_clientid : String) :
    GetuserResult :=
  match handle with
  | none => { result := .defer, phash := phash, handle := none, db := db }
  | some conf =>
    match conf.user with
    | none => { result := .defer, phash := phash, handle := some conf, db := db }
    | some user => getuser_out conf phash (getuser_loop username 5 none .defer user db)

/-- `be_sqlite_superuser`, lines 177-180. -/
def be_sqlite_superuser (_handle : Option sqlite_backend) (_username : String) : Verdict :=
  .defer

/-- The body of the row loop of `be_sqlite_aclcheck`, lines 226-243: the new
`result` and the engine. -/
def acl_row (E : Host) (clientid username topic : String) (row : Option String)
    (result : Verdict) (db : Db) : Verdict × Db :=
  let v := sqlite3_column_text db .acl row 0
  match v.1 with
  | none => (result, v.2)
  | some pat =>
    let db1 := v.2.record (.t_expand clientid username pat)
    match E.t_expand clientid username pat with
    | none => (result, db1)
    | some expanded =>
      if expanded ≠ "" then
        let db2 := db1.record (.topic_matches_sub expanded topic)
        (if E.topic_matches_sub expanded topic then .allow else result, db2)
      else (result, db1)

/-- The `while` loop of `be_sqlite_aclcheck`, lines 225-244, with the locals
`result` and `res`.  The first argument bounds the number of iterations; each
iteration takes one entry off `db.steps`, so `db.steps.length + 1` is never
used up. -/
def acl_loop (E : Host) (clientid username topic : String) :
    Nat → Verdict → Nat → Option Stmt → Db → Verdict × Nat × Option Stmt × Db
  | 0, result, res, stmt, db => (result, res, stmt, db)
  | fuel + 1, result, res, stmt, db =>
    if result = .defer then
      let st := sqlite3_step db .acl stmt
      if st.1 = SQLITE_ROW then
        let b := acl_row E clientid username topic st.2.1 result st.2.2.2
        acl_loop E clientid username topic fuel b.1 st.1 st.2.2.1 b.2
      else (result, st.1, st.2.2.1, st.2.2.2)
    else (result, res, stmt, db)

/-- What `be_sqlite_aclcheck` leaves behind: the returned verdict, the instance
and the engine. -/
structure AclResult where
  result : Verdict
  handle : Option sqlite_backend
  db : Db
  deriving DecidableEq, Repr

/-- The label `out` of `be_sqlite_aclcheck`, lines 252-254. -/
def acl_out (conf : sqlite_backend) (acl : stmt_query) (result : Verdict) (stmt : Option Stmt)
    (db : Db) : AclResult :=
  let rs := sqlite3_reset db .acl stmt
  { result := result, handle := some { conf with acl := some { acl with stmt := rs.2.1 } },
    db := rs.2.2 }

/-- Lines 218-250 of `be_sqlite_aclcheck`, entered with the username bound: bind
the access mode to parameter 2, run the row loop, handle a step error, and go
to `out`. -/
def acl_rows (E : Host) (conf : sqlite_backend) (q : stmt_query) (db : Db)
    (clientid username topic : String) (acc : Int) : AclResult :=
  let b2 := sqlite3_bind_int db .acl q.stmt 2 acc
  if b2.1 ≠ SQLITE_OK then acl_out conf q .error b2.2.1 b2.2.2
  else
    let lp := acl_loop E clientid username topic (b2.2.2.steps.length + 1)
      .defer b2.1 b2.2.1 b2.2.2
    if lp.2.1 = SQLITE_ERROR then
      let f := sqlite3_finalize lp.2.2.2 .acl lp.2.2.1
      acl_out conf q .error none f.2
    else acl_out conf q lp.1 lp.2.2.1 lp.2.2.2

/-- `be_sqlite_aclcheck`, lines 182-255. -/
def be_sqlite_aclcheck (E : Host) (handle : Option sqlite_backend) (db : Db)
    (clientid username topic : String) (acc : Int) : AclResult :=
  match handle with
  | none => { result := .defer, handle := none, db := db }
  | some conf =>
    match conf.acl with
    | none => { result := .allow, handle := some conf, db := db }
    | some acl =>
      match prologue .acl acl db username with
      | .ret q d => { result := .error, handle := some { conf with acl := some q }, db := d }
      | .out q d => acl_out conf q .error q.stmt d
      | .bound q d => acl_rows E conf q d clientid username topic acc

/-! ## Vocabulary of the statements -/

/-- The query handle of an instance in a slot. -/
def sqlite_backend.slot (conf : sqlite_backend) : Slot → Option stmt_query
  | .user => conf.user
  | .acl => conf.acl

/-- The parsed-statement token of a slot of an instance: `none` when the
instance, the handle or the statement is absent. -/
def token (slot : Slot) (handle : Option sqlite_backend) : Option Stmt :=
  match handle with
  | none => none
  | some conf =>
    match conf.slot slot with
    | none => none
    | some q => q.stmt

/-- No open, prepare, reset, clear-bindings or bind still to come fails. -/
def Db.NoFailure (db : Db) : Prop := ∀ rc ∈ db.rcs, rc = SQLITE_OK

instance (db : Db) : Decidable db.NoFailure :=
  inferInstanceAs (Decidable (∀ rc ∈ db.rcs, rc = SQLITE_OK))

/-- No step still to come returns `SQLITE_ERROR`. -/
def Db.NoStepError (db : Db) : Prop := ∀ s ∈ db.steps, s.1 ≠ SQLITE_ERROR

instance (db : Db) : Decidable db.NoStepError :=
  inferInstanceAs (Decidable (∀ s ∈ db.steps, s.1 ≠ SQLITE_ERROR))

/-- Is the call a `sqlite3_step` on the slot? -/
def isStep (slot : Slot) : Call → Bool
  | .step s _ => decide (s = slot)
  | _ => false

/-- Is the call a `sqlite3_prepare` on the slot? -/
def isPrepare (slot : Slot) : Call → Bool
  | .prepare s _ _ => decide (s = slot)
  | _ => false

/-- Number of `sqlite3_step` calls on a slot in a record of calls. -/
def stepCalls (slot : Slot) (l : List Call) : Nat := l.countP (isStep slot)

/-- Number of `sqlite3_prepare` calls on a slot in a record of calls. -/
def prepareCalls (slot : Slot) (l : List Call) : Nat := l.countP (isPrepare slot)

/-- The handle a `Setup` carries. -/
def Setup.q : Setup → stmt_query
  | .ret q _ => q
  | .out q _ => q
  | .bound q _ => q

/-- The engine a `Setup` carries. -/
def Setup.db : Setup → Db
  | .ret _ d => d
  | .out _ d => d
  | .bound _ d => d

/-- The calls that open a use cycle when nothing fails: a prepare if the
statement is absent, then reset, clear-bindings, bind of the username to
parameter 1. -/
def openingCalls (slot : Slot) (q : stmt_query) (username : String) : List Call :=
  (if q.stmt = none then [Call.prepare slot q.query q.query_length] else []) ++
    [.reset slot, .clear_bindings slot, .bind_text slot 1 username]

/-- Does a row of the ACL query allow the request: its column 0 is not null,
the expansion of that pattern is neither null nor empty, and the broker's
matcher reports that the expansion matches the request topic. -/
def rowAllows (E : Host) (clientid username topic : String) (col : Option String) : Bool :=
  match col with
  | none => false
  | some pat =>
    match E.t_expand clientid username pat with
    | none => false
    | some expanded => decide (expanded ≠ "") && E.topic_matches_sub expanded topic

/-- Is the expansion of the row's pattern empty? -/
def expandsToEmpty (E : Host) (clientid username : String) (col : Option String) : Bool :=
  match col with
  | none => false
  | some pat => decide (E.t_expand clientid username pat = some "")

/-- The calls one stepped row of the ACL query causes: the step, the read of
column 0, the expansion of a non-null pattern, the match of a non-empty
expansion. -/
def rowCalls (E : Host) (clientid username topic : String) (col : Option String) : List Call :=
  [.step .acl SQLITE_ROW, .column_text .acl 0] ++
    match col with
    | none => []
    | some pat =>
      .t_expand clientid username pat ::
        match E.t_expand clientid username pat with
        | none => []
        | some expanded => if expanded ≠ "" then [.topic_matches_sub expanded topic] else []

/-- The step results of a statement that yields the rows with these columns 0. -/
def asRows (cols : List (Option String)) : List (Nat × Option String) :=
  cols.map (fun c => (SQLITE_ROW, c))

/-- Every step still to come returns a status that is neither a row nor the
error status (done, busy, ...). -/
def Db.OnlyTransient (db : Db) : Prop :=
  ∀ s ∈ db.steps, s.1 ≠ SQLITE_ROW ∧ s.1 ≠ SQLITE_ERROR

instance (db : Db) : Decidable db.OnlyTransient :=
  inferInstanceAs (Decidable (∀ s ∈ db.steps, s.1 ≠ SQLITE_ROW ∧ s.1 ≠ SQLITE_ERROR))

/-- Is the call a `sqlite3_finalize`? -/
def isFinalize : Call → Bool
  | .finalize _ => true
  | _ => false

/-- One broker callback on the instance, with its arguments. -/
inductive Request where
  | getuser (username password : String) (phash : Option String) (clientid : String)
  | aclcheck (clientid username topic : String) (acc : Int)
  deriving DecidableEq, Repr

/-- Serve one callback: the instance and the engine afterwards. -/
def serve (E : Host) (st : Option sqlite_backend × Db) : Request → Option sqlite_backend × Db
  | .getuser username password phash clientid =>
    ((be_sqlite_getuser st.1 st.2 username password phash clientid).handle,
      (be_sqlite_getuser st.1 st.2 username password phash clientid).db)
  | .aclcheck clientid username topic acc =>
    ((be_sqlite_aclcheck E st.1 st.2 clientid username topic acc).handle,
      (be_sqlite_aclcheck E st.1 st.2 clientid username topic acc).db)

/-- Serve a sequence of callbacks, one after the other. -/
def serveAll (E : Host) (st : Option sqlite_backend × Db) (reqs : List Request) :
    Option sqlite_backend × Db :=
  reqs.foldl (serve E) st

/-- The number of prepares a slot is waiting for: 1 when its handle is present
and its statement absent, 0 otherwise. -/
def pending (slot : Slot) (handle : Option sqlite_backend) : Nat :=
  match handle with
  | none => 0
  | some conf =>
    match conf.slot slot with
    | none => 0
    | some q => if q.stmt = none then 1 else 0

/-- The token of the slot is absent, or was not stepped since its last reset. -/
def Rewound (slot : Slot) (handle : Option sqlite_backend) : Prop :=
  ∀ s, token slot handle = some s → s.stepped = false

instance (slot : Slot) (handle : Option sqlite_backend) : Decidable (Rewound slot handle) :=
  match h : token slot handle with
  | none => isTrue (fun s hs => by rw [h] at hs; cases hs)
  | some s0 =>
    if h0 : s0.stepped = false then
      isTrue (fun s hs => by rw [h] at hs; cases hs; exact h0)
    else isFalse (fun hall => h0 (hall s0 h))

/-- The token of the slot is absent, or has no parameter bound. -/
def Unbound (slot : Slot) (handle : Option sqlite_backend) : Prop :=
  ∀ s, token slot handle = some s → s.bound = []

instance (slot : Slot) (handle : Option sqlite_backend) : Decidable (Unbound slot handle) :=
  match h : token slot handle with
  | none => isTrue (fun s hs => by rw [h] at hs; cases hs)
  | some s0 =>
    if h0 : s0.bound = [] then
      isTrue (fun s hs => by rw [h] at hs; cases hs; exact h0)
    else isFalse (fun hall => h0 (hall s0 h))

/-- In the record of one `be_sqlite_getuser` call, `n` being the number of
attempts the loop still allows: every step that returned `SQLITE_ERROR` was one
of these attempts and is followed at once by the finalize of the statement;
when another attempt is allowed after it, the finalize is followed by the
prepare of the query (and, when `P` holds, by the reset, the clear-bindings,
the bind of the username to parameter 1 and a step); when none is, by the
closing reset alone, and then `Q` holds.  Every step uses up one attempt. -/
def ErrorsRecovered (Q P : Prop) (query : String) (len : Nat) (username : String) :
    Nat → List Call → Prop
  | _, [] => True
  | n, c :: rest =>
    (c = .step .user SQLITE_ERROR →
      0 < n ∧ ∃ tl, rest = .finalize .user :: tl ∧
        (1 < n → ∃ tl1, tl = .prepare .user query len :: tl1 ∧
          (P → ∃ rc tl2, tl1 = .reset .user :: .clear_bindings .user ::
            .bind_text .user 1 username :: .step .user rc :: tl2)) ∧
        (¬ 1 < n → tl = [.reset .user] ∧ Q)) ∧
    ErrorsRecovered Q P query len username (if isStep .user c then n - 1 else n) rest

/-- What holds of the part of a `be_sqlite_getuser` call that runs from one
evaluation of the loop condition (with `retries == r` before its decrement and
the locals `value`, `result`, `*conf->user`) to the return, `G` being what the
call leaves behind, `T` the calls made in that part and `P` a condition under
which nothing fails. -/
def GetuserTail (conf : sqlite_backend) (P : Prop) (username : String) (r : Nat)
    (value : Option String) (result : Verdict) (user : stmt_query) (db : Db)
    (G : GetuserResult) : Prop :=
  ∃ T q,
    G.db.log = db.log ++ T ∧
    G.handle = some { conf with user := some q } ∧
    q.query = user.query ∧ q.query_length = user.query_length ∧
    (∀ s, q.stmt = some s → s.stepped = false) ∧
    (user.stmt = none → value = none →
      (¬ 1 < r → T = [.reset .user] ∧ G.phash = none ∧ q.stmt = none) ∧
      (1 < r → ∃ tl, T = .prepare .user user.query user.query_length :: tl ∧
        (P → ∃ rc tl2, tl = .reset .user :: .clear_bindings .user ::
          .bind_text .user 1 username :: .step .user rc :: tl2))) ∧
    ErrorsRecovered (G.phash = none ∧ q.stmt = none) P user.query user.query_length username
      (r - 1) T ∧
    (result = .error → G.result = .error) ∧
    (Call.step .user SQLITE_ERROR ∈ T → G.result = .error) ∧
    (∀ c ∈ T, isPrepare .acl c = false)

/-! ## Concrete values for the scenarios -/

/-- A host whose expander substitutes nothing and whose matcher is equality of
the pattern and the topic. -/
def demoHost : Host :=
  { t_expand := fun _ _ pattern => some pattern, topic_matches_sub := fun sub topic => sub == topic }

/-- The user query of scenarios S1 and S2. -/
def demoUserQuery : String := "SELECT pw FROM users WHERE name=?"

/-- The ACL query of scenarios S3 to S6. -/
def demoAclQuery : String := "SELECT topic FROM acl WHERE name=? AND acc>=?"

/-- An engine on which nothing fails and whose statements yield these step
results. -/
def demoDb (steps : List (Nat × Option String)) : Db :=
  { rcs := [], steps := steps, log := [] }

/-- The user-query handle `be_sqlite_init` builds when nothing fails. -/
def demoUser : stmt_query :=
  { stmt := some { stepped := false, bound := [] }, query := demoUserQuery, query_length := 33 }

/-- The ACL-query handle `be_sqlite_init` builds when nothing fails. -/
def demoAcl : stmt_query :=
  { stmt := some { stepped := false, bound := [] }, query := demoAclQuery, query_length := 45 }

/-- The instance `be_sqlite_init` builds from the two queries when nothing
fails: both statements prepared. -/
def demoConf : sqlite_backend :=
  { user := some demoUser, acl := some demoAcl }

/-- The instance `be_sqlite_init` builds when no ACL query is configured. -/
def demoConfNoAcl : sqlite_backend :=
  { user := some demoUser, acl := none }

/-- A lookup of alice whose first step fails and whose second attempt finds
her row. -/
def demoRetry : GetuserResult :=
  be_sqlite_getuser (some demoConf)
    (demoDb [(SQLITE_ERROR, none), (SQLITE_ROW, some "H1"), (SQLITE_ROW, some "H1")])
    "alice" "secret" none "c1"

/-- The instance and engine after `be_sqlite_init` and one successful lookup of
alice. -/
def demoAfterLookup : Option sqlite_backend × Db :=
  serveAll demoHost
    (be_sqlite_init (some "auth.db") (some demoUserQuery) (some demoAclQuery)
      (demoDb [(SQLITE_ROW, some "H1")]))
    [.getuser "alice" "secret" none "c1"]

/-! ## The engine's queues -/

theorem Db.result_fst {db : Db} (h : db.NoFailure) (c : Call) : (db.result c).1 = SQLITE_OK := by
  unfold Db.NoFailure at h
  unfold Db.result
  cases hr : db.rcs with
  | nil => rfl
  | cons a l => rw [hr] at h; simpa using h a (by simp)

theorem Db.result_noFailure {db : Db} (h : db.NoFailure) (c : Call) : (db.result c).2.NoFailure := by
  unfold Db.NoFailure at h ⊢
  intro rc hrc
  exact h rc (List.mem_of_mem_tail hrc)

@[simp] theorem Db.result_log (db : Db) (c : Call) : (db.result c).2.log = db.log ++ [c] := rfl
@[simp] theorem Db.result_steps (db : Db) (c : Call) : (db.result c).2.steps = db.steps := rfl
@[simp] theorem Db.record_log (db : Db) (c : Call) : (db.record c).log = db.log ++ [c] := rfl
@[simp] theorem Db.record_steps (db : Db) (c : Call) : (db.record c).steps = db.steps := rfl
@[simp] theorem Db.record_rcs (db : Db) (c : Call) : (db.record c).rcs = db.rcs := rfl

theorem Db.record_noFailure {db : Db} (h : db.NoFailure) (c : Call) : (db.record c).NoFailure := h

theorem stepCalls_append (slot : Slot) (a b : List Call) :
    stepCalls slot (a ++ b) = stepCalls slot a + stepCalls slot b := by
  simp [stepCalls, List.countP_append]

theorem stepCalls_openingCalls (slot : Slot) (q : stmt_query) (username : String) :
    stepCalls slot (openingCalls slot q username) = 0 := by
  unfold openingCalls stepCalls
  split <;> simp [isStep]

theorem prologue_ok (slot : Slot) (q : stmt_query) (db : Db) (username : String)
    (hok : db.NoFailure) :
    ∃ d, prologue slot q db username
        = .bound { q with stmt := some { stepped := false, bound := [1] } } d ∧
      d.NoFailure ∧ d.steps = db.steps ∧ d.log = db.log ++ openingCalls slot q username := by
  unfold prologue
  cases hs : q.stmt with
  | none =>
    have h1 := Db.result_fst hok (.prepare slot q.query q.query_length)
    have n1 := Db.result_noFailure hok (.prepare slot q.query q.query_length)
    have h2 := Db.result_fst n1 (.reset slot)
    have n2 := Db.result_noFailure n1 (.reset slot)
    have h3 := Db.result_fst n2 (.clear_bindings slot)
    have n3 := Db.result_noFailure n2 (.clear_bindings slot)
    have h4 := Db.result_fst n3 (.bind_text slot 1 username)
    have n4 := Db.result_noFailure n3 (.bind_text slot 1 username)
    simp [prepareStatement, sqlite3_prepare, sqlite3_reset, sqlite3_clear_bindings,
      sqlite3_bind_text, h1, h2, h3, h4, n4, openingCalls, hs]
  | some s =>
    have h2 := Db.result_fst hok (.reset slot)
    have n2 := Db.result_noFailure hok (.reset slot)
    have h3 := Db.result_fst n2 (.clear_bindings slot)
    have n3 := Db.result_noFailure n2 (.clear_bindings slot)
    have h4 := Db.result_fst n3 (.bind_text slot 1 username)
    have n4 := Db.result_noFailure n3 (.bind_text slot 1 username)
    simp [sqlite3_reset, sqlite3_clear_bindings,
      sqlite3_bind_text, h2, h3, h4, n4, openingCalls, hs]

theorem getuser_row_run (conf : sqlite_backend) (user : stmt_query) (db : Db)
    (username password clientid h : String) (phash : Option String)
    (rest : List (Nat × Option String))
    (hu : conf.user = some user) (hok : db.NoFailure)
    (hrow : db.steps = (SQLITE_ROW, some h) :: rest) :
    (be_sqlite_getuser (some conf) db username password phash clientid).result = .defer ∧
    (be_sqlite_getuser (some conf) db username password phash clientid).phash = some h ∧
    (be_sqlite_getuser (some conf) db username password phash clientid).db.steps = rest ∧
    (be_sqlite_getuser (some conf) db username password phash clientid).db.log
      = db.log ++ openingCalls .user user username ++
        [.step .user SQLITE_ROW, .column_text .user 0, .reset .user] ∧
    stepCalls .user (be_sqlite_getuser (some conf) db username password phash clientid).db.log
      = stepCalls .user db.log + 1 := by
  obtain ⟨d, hd, hn, hst, hlog⟩ := prologue_ok .user user db username hok
  have key : be_sqlite_getuser (some conf) db username password phash clientid
      = { result := .defer, phash := some h,
          handle := some { conf with user := some { user with stmt := some { stepped := false, bound := [1] } } },
          db := { rcs := d.rcs.tail, steps := rest, log := db.log ++ openingCalls .user user username ++
        [.step .user SQLITE_ROW, .column_text .user 0, .reset .user] } } := by
    simp [be_sqlite_getuser, hu, getuser_loop, getuser_attempt, hd, sqlite3_step, hst, hrow,
      sqlite3_column_text, getuser_out, sqlite3_reset, hlog, Db.result, Db.record]
  rw [key]
  simp only [stepCalls_append, stepCalls_openingCalls]
  simp [stepCalls, isStep]

theorem acl_row_eq (E : Host) (clientid username topic : String) (col : Option String)
    (result : Verdict) (db : Db) :
    acl_row E clientid username topic col result (db.record (.step .acl SQLITE_ROW))
      = (if rowAllows E clientid username topic col then .allow else result,
          { db with log := db.log ++ rowCalls E clientid username topic col }) := by
  unfold acl_row rowAllows rowCalls sqlite3_column_text
  cases col with
  | none => simp [Db.record]
  | some pat =>
    cases hx : E.t_expand clientid username pat with
    | none => simp [Db.record, hx]
    | some e =>
      by_cases he : e = ""
      · simp [Db.record, he, hx]
      · by_cases hm : E.topic_matches_sub e topic <;> simp [Db.record, he, hm, hx]

theorem acl_loop_skip (E : Host) (clientid username topic : String)
    (tail : List (Nat × Option String)) (fuel : Nat) :
    ∀ (rows : List (Option String)) (db : Db) (res : Nat) (s : Stmt),
      db.steps = asRows rows ++ tail →
      (∀ c ∈ rows, rowAllows E clientid username topic c = false) →
      ∃ res1 s1,
        acl_loop E clientid username topic (fuel + rows.length) .defer res (some s) db
          = acl_loop E clientid username topic fuel .defer res1 (some s1)
              { db with steps := tail,
                        log := db.log ++ rows.flatMap (rowCalls E clientid username topic) } := by
  intro rows
  induction rows with
  | nil =>
    intro db res s hsteps _
    refine ⟨res, s, ?_⟩
    simp [asRows] at hsteps
    simp [← hsteps]
  | cons c rows ih =>
    intro db res s hsteps hno
    have hc : rowAllows E clientid username topic c = false := hno c (by simp)
    have hrest : ∀ x ∈ rows, rowAllows E clientid username topic x = false :=
      fun x hx => hno x (by simp [hx])
    have hsteps1 : db.steps = (SQLITE_ROW, c) :: (asRows rows ++ tail) := by
      simpa [asRows] using hsteps
    obtain ⟨res1, s1, h1⟩ := ih
      { db with steps := asRows rows ++ tail,
                log := db.log ++ rowCalls E clientid username topic c }
      SQLITE_ROW { s with stepped := true } rfl hrest
    refine ⟨res1, s1, ?_⟩
    have hl : fuel + (c :: rows).length = (fuel + rows.length) + 1 := by simp; omega
    rw [hl, acl_loop]
    have hrow := acl_row_eq E clientid username topic c .defer
      { db with steps := asRows rows ++ tail }
    simp only [Db.record] at hrow
    simp only [sqlite3_step, hsteps1, List.headD_cons, List.tail_cons, if_true, hrow, hc]
    simpa using h1

theorem stepCalls_rowCalls (E : Host) (clientid username topic : String) (col : Option String) :
    stepCalls .acl (rowCalls E clientid username topic col) = 1 := by
  unfold rowCalls stepCalls
  cases col with
  | none => simp [isStep]
  | some pat =>
    cases hx : E.t_expand clientid username pat with
    | none => simp [isStep, hx]
    | some e => by_cases he : e = "" <;> simp [isStep, hx, he]

theorem stepCalls_flatMap_rowCalls (E : Host) (clientid username topic : String)
    (rows : List (Option String)) :
    stepCalls .acl (rows.flatMap (rowCalls E clientid username topic)) = rows.length := by
  induction rows with
  | nil => simp [stepCalls]
  | cons c rows ih =>
    rw [List.flatMap_cons, stepCalls_append, stepCalls_rowCalls, ih, List.length_cons]
    omega

/-- With no failure and an ACL handle, `be_sqlite_aclcheck` reaches the row loop
with both parameters bound. -/
theorem aclcheck_reaches_loop (E : Host) (conf : sqlite_backend) (acl : stmt_query) (db : Db)
    (clientid username topic : String) (acc : Int)
    (hacl : conf.acl = some acl) (hok : db.NoFailure) :
    ∃ (d : Db) (s : Stmt) (q : stmt_query), d.NoFailure ∧ d.steps = db.steps ∧
      d.log = db.log ++ openingCalls .acl acl username ++ [.bind_int .acl 2 acc] ∧
      be_sqlite_aclcheck E (some conf) db clientid username topic acc
        = if (acl_loop E clientid username topic (db.steps.length + 1)
                .defer SQLITE_OK (some s) d).2.1 = SQLITE_ERROR then
            acl_out conf q .error none
              ((acl_loop E clientid username topic (db.steps.length + 1)
                .defer SQLITE_OK (some s) d).2.2.2.record (.finalize .acl))
          else
            acl_out conf q
              (acl_loop E clientid username topic (db.steps.length + 1)
                .defer SQLITE_OK (some s) d).1
              (acl_loop E clientid username topic (db.steps.length + 1)
                .defer SQLITE_OK (some s) d).2.2.1
              (acl_loop E clientid username topic (db.steps.length + 1)
                .defer SQLITE_OK (some s) d).2.2.2 := by
  obtain ⟨d, hd, hn, hst, hlog⟩ := prologue_ok .acl acl db username hok
  have h1 := Db.result_fst hn (.bind_int .acl 2 acc)
  have n1 := Db.result_noFailure hn (.bind_int .acl 2 acc)
  refine ⟨(d.result (.bind_int .acl 2 acc)).2, { stepped := false, bound := [2, 1] },
    { acl with stmt := some { stepped := false, bound := [1] } }, n1, ?_, ?_, ?_⟩
  · simp [hst]
  · simp [hlog]
  · simp [be_sqlite_aclcheck, hacl, hd, acl_rows, sqlite3_bind_int, h1, hst, sqlite3_finalize]

theorem acl_loop_allow (E : Host) (clientid username topic : String) (fuel : Nat) (res : Nat)
    (s : Stmt) (db : Db) (col : Option String) (rest : List (Nat × Option String))
    (hsteps : db.steps = (SQLITE_ROW, col) :: rest)
    (hcol : rowAllows E clientid username topic col = true) :
    acl_loop E clientid username topic (fuel + 2) .defer res (some s) db
      = (.allow, SQLITE_ROW, some { s with stepped := true },
          { db with steps := rest, log := db.log ++ rowCalls E clientid username topic col }) := by
  have hrow := acl_row_eq E clientid username topic col .defer { db with steps := rest }
  simp only [Db.record] at hrow
  rw [acl_loop]
  simp only [sqlite3_step, hsteps, List.headD_cons, List.tail_cons, if_true, hrow, hcol]
  rw [acl_loop]
  simp

theorem acl_loop_stop (E : Host) (clientid username topic : String) (fuel : Nat) (res : Nat)
    (s : Stmt) (db : Db)
    (hstop : (db.steps.headD (SQLITE_DONE, none)).1 ≠ SQLITE_ROW) :
    acl_loop E clientid username topic (fuel + 1) .defer res (some s) db
      = (.defer, (db.steps.headD (SQLITE_DONE, none)).1, some { s with stepped := true },
          { db with steps := db.steps.tail,
                    log := db.log ++ [.step .acl (db.steps.headD (SQLITE_DONE, none)).1] }) := by
  rw [acl_loop]
  simp only [sqlite3_step, ↓reduceIte, hstop]

theorem exists_first_allow (P : Option String → Bool) :
    ∀ rows : List (Option String), rows.any P = true →
      ∃ pre col post, rows = pre ++ col :: post ∧ (∀ x ∈ pre, P x = false) ∧ P col = true := by
  intro rows
  induction rows with
  | nil => simp
  | cons c rows ih =>
    intro h
    by_cases hc : P c = true
    · exact ⟨[], c, rows, rfl, by simp, hc⟩
    · have hr : rows.any P = true := by simpa [hc] using h
      obtain ⟨pre, col, post, he, hp, hcol⟩ := ih hr
      refine ⟨c :: pre, col, post, by simp [he], ?_, hcol⟩
      intro x hx
      rcases List.mem_cons.1 hx with rfl | hx
      · simpa using hc
      · exact hp x hx

theorem asRows_length (rows : List (Option String)) : (asRows rows).length = rows.length := by
  simp [asRows]

theorem aclcheck_allow_at_first_match (E : Host) (conf : sqlite_backend) (acl : stmt_query)
    (db : Db) (clientid username topic : String) (acc : Int)
    (pre : List (Option String)) (p : Option String) (rest : List (Nat × Option String))
    (hacl : conf.acl = some acl) (hok : db.NoFailure)
    (hsteps : db.steps = asRows pre ++ (SQLITE_ROW, p) :: rest)
    (hpre : ∀ x ∈ pre, rowAllows E clientid username topic x = false)
    (hp : rowAllows E clientid username topic p = true) :
    (be_sqlite_aclcheck E (some conf) db clientid username topic acc).result = .allow ∧
    (be_sqlite_aclcheck E (some conf) db clientid username topic acc).db.steps = rest ∧
    (be_sqlite_aclcheck E (some conf) db clientid username topic acc).db.log
      = db.log ++ openingCalls .acl acl username ++ [.bind_int .acl 2 acc] ++
          (pre ++ [p]).flatMap (rowCalls E clientid username topic) ++ [.reset .acl] ∧
    stepCalls .acl (be_sqlite_aclcheck E (some conf) db clientid username topic acc).db.log
      = stepCalls .acl db.log + (pre.length + 1) := by
  obtain ⟨d, s, q, hn, hst, hlog, heq⟩ :=
    aclcheck_reaches_loop E conf acl db clientid username topic acc hacl hok
  have hlen : db.steps.length + 1 = (rest.length + 2) + pre.length := by
    rw [hsteps, List.length_append, asRows_length, List.length_cons]; omega
  obtain ⟨res1, s1, hskip⟩ := acl_loop_skip E clientid username topic ((SQLITE_ROW, p) :: rest)
    (rest.length + 2) pre d SQLITE_OK s (by rw [hst, hsteps]) hpre
  have hallow := acl_loop_allow E clientid username topic rest.length res1 s1
    { d with steps := (SQLITE_ROW, p) :: rest,
             log := d.log ++ pre.flatMap (rowCalls E clientid username topic) } p rest rfl hp
  rw [hlen, hskip, hallow] at heq
  have hne : SQLITE_ROW ≠ SQLITE_ERROR := by decide
  simp only [hne, if_false] at heq
  rw [heq]
  have hlog2 : (acl_out conf q .allow (some { s1 with stepped := true })
      { d with steps := rest,
               log := d.log ++ pre.flatMap (rowCalls E clientid username topic) ++
                 rowCalls E clientid username topic p }).db.log
      = db.log ++ openingCalls .acl acl username ++ [.bind_int .acl 2 acc] ++
          (pre ++ [p]).flatMap (rowCalls E clientid username topic) ++ [.reset .acl] := by
    simp [acl_out, sqlite3_reset, Db.result, hlog]
  refine ⟨rfl, rfl, hlog2, ?_⟩
  rw [hlog2]
  simp only [stepCalls_append, stepCalls_openingCalls, stepCalls_flatMap_rowCalls]
  simp [stepCalls, isStep]

theorem aclcheck_no_match (E : Host) (conf : sqlite_backend) (acl : stmt_query)
    (db : Db) (clientid username topic : String) (acc : Int)
    (rows : List (Option String)) (tail : List (Nat × Option String))
    (hacl : conf.acl = some acl) (hok : db.NoFailure)
    (hsteps : db.steps = asRows rows ++ tail)
    (hrows : ∀ x ∈ rows, rowAllows E clientid username topic x = false)
    (hrow : (tail.headD (SQLITE_DONE, none)).1 ≠ SQLITE_ROW)
    (herr : (tail.headD (SQLITE_DONE, none)).1 ≠ SQLITE_ERROR) :
    (be_sqlite_aclcheck E (some conf) db clientid username topic acc).result = .defer := by
  obtain ⟨d, s, q, hn, hst, hlog, heq⟩ :=
    aclcheck_reaches_loop E conf acl db clientid username topic acc hacl hok
  have hlen : db.steps.length + 1 = (tail.length + 1) + rows.length := by
    rw [hsteps, List.length_append, asRows_length]; omega
  obtain ⟨res1, s1, hskip⟩ := acl_loop_skip E clientid username topic tail
    (tail.length + 1) rows d SQLITE_OK s (by rw [hst, hsteps]) hrows
  have hstop := acl_loop_stop E clientid username topic tail.length res1 s1
    { d with steps := tail,
             log := d.log ++ rows.flatMap (rowCalls E clientid username topic) } hrow
  rw [hlen, hskip, hstop] at heq
  simp only [herr, if_false] at heq
  rw [heq]
  rfl

theorem aclcheck_result_eq (E : Host) (conf : sqlite_backend) (acl : stmt_query)
    (db : Db) (clientid username topic : String) (acc : Int)
    (rows : List (Option String)) (tail : List (Nat × Option String))
    (hacl : conf.acl = some acl) (hok : db.NoFailure)
    (hsteps : db.steps = asRows rows ++ tail)
    (hrow : (tail.headD (SQLITE_DONE, none)).1 ≠ SQLITE_ROW)
    (herr : (tail.headD (SQLITE_DONE, none)).1 ≠ SQLITE_ERROR) :
    (be_sqlite_aclcheck E (some conf) db clientid username topic acc).result
      = if rows.any (rowAllows E clientid username topic) then .allow else .defer := by
  by_cases hany : rows.any (rowAllows E clientid username topic) = true
  · obtain ⟨pre, col, post, he, hpre, hcol⟩ := exists_first_allow _ rows hany
    have hs : db.steps = asRows pre ++ (SQLITE_ROW, col) :: (asRows post ++ tail) := by
      rw [hsteps, he]; simp [asRows]
    rw [if_pos hany]
    exact (aclcheck_allow_at_first_match E conf acl db clientid username topic acc pre col _ hacl hok hs
      hpre hcol).1
  · rw [if_neg hany]
    have hno : ∀ x ∈ rows, rowAllows E clientid username topic x = false := by
      intro x hx
      by_contra hc
      exact hany (List.any_eq_true.2 ⟨x, hx, by simpa using hc⟩)
    exact aclcheck_no_match E conf acl db clientid username topic acc rows tail hacl hok hsteps
      hno hrow herr

theorem rowAllows_of_expandsToEmpty (E : Host) (clientid username topic : String)
    (col : Option String) (h : expandsToEmpty E clientid username col = true) :
    rowAllows E clientid username topic col = false := by
  cases col with
  | none => rfl
  | some pat =>
    have h1 : E.t_expand clientid username pat = some "" := by simpa [expandsToEmpty] using h
    simp [rowAllows, h1]

@[simp] theorem prepareStatement_log (db : Db) (slot : Slot) (q : stmt_query) :
    (prepareStatement db slot q).2.2.log = db.log ++ [.prepare slot q.query q.query_length] := rfl
@[simp] theorem prepareStatement_steps (db : Db) (slot : Slot) (q : stmt_query) :
    (prepareStatement db slot q).2.2.steps = db.steps := rfl
@[simp] theorem prepareStatement_query (db : Db) (slot : Slot) (q : stmt_query) :
    (prepareStatement db slot q).2.1.query = q.query := rfl
@[simp] theorem prepareStatement_query_length (db : Db) (slot : Slot) (q : stmt_query) :
    (prepareStatement db slot q).2.1.query_length = q.query_length := rfl
theorem prepareStatement_stmt_of_false (db : Db) (slot : Slot) (q : stmt_query)
    (h : (prepareStatement db slot q).1 = false) : (prepareStatement db slot q).2.1.stmt = none := by
  simp only [prepareStatement, sqlite3_prepare, decide_eq_false_iff_not] at h ⊢
  rw [if_neg h]

@[simp] theorem sqlite3_reset_log (db : Db) (slot : Slot) (st : Option Stmt) :
    (sqlite3_reset db slot st).2.2.log = db.log ++ [.reset slot] := by
  cases st <;> rfl
@[simp] theorem sqlite3_reset_steps (db : Db) (slot : Slot) (st : Option Stmt) :
    (sqlite3_reset db slot st).2.2.steps = db.steps := by
  cases st <;> rfl
@[simp] theorem sqlite3_clear_bindings_log (db : Db) (slot : Slot) (st : Option Stmt) :
    (sqlite3_clear_bindings db slot st).2.2.log = db.log ++ [.clear_bindings slot] := by
  cases st <;> rfl
@[simp] theorem sqlite3_clear_bindings_steps (db : Db) (slot : Slot) (st : Option Stmt) :
    (sqlite3_clear_bindings db slot st).2.2.steps = db.steps := by
  cases st <;> rfl
@[simp] theorem sqlite3_bind_text_log (db : Db) (slot : Slot) (st : Option Stmt) (i : Nat)
    (t : String) :
    (sqlite3_bind_text db slot st i t).2.2.log = db.log ++ [.bind_text slot i t] := by
  cases st <;> rfl
@[simp] theorem sqlite3_bind_text_steps (db : Db) (slot : Slot) (st : Option Stmt) (i : Nat)
    (t : String) : (sqlite3_bind_text db slot st i t).2.2.steps = db.steps := by
  cases st <;> rfl
@[simp] theorem sqlite3_bind_int_log (db : Db) (slot : Slot) (st : Option Stmt) (i : Nat)
    (v : Int) :
    (sqlite3_bind_int db slot st i v).2.2.log = db.log ++ [.bind_int slot i v] := by
  cases st <;> rfl
@[simp] theorem sqlite3_bind_int_steps (db : Db) (slot : Slot) (st : Option Stmt) (i : Nat)
    (v : Int) : (sqlite3_bind_int db slot st i v).2.2.steps = db.steps := by
  cases st <;> rfl
@[simp] theorem sqlite3_step_log (db : Db) (slot : Slot) (st : Option Stmt) :
    (sqlite3_step db slot st).2.2.2.log = db.log ++ [.step slot (sqlite3_step db slot st).1] := by
  cases st <;> rfl
@[simp] theorem sqlite3_finalize_log (db : Db) (slot : Slot) (st : Option Stmt) :
    (sqlite3_finalize db slot st).2.log = db.log ++ [.finalize slot] := rfl
@[simp] theorem sqlite3_column_text_log (db : Db) (slot : Slot) (row : Option String) (c : Nat) :
    (sqlite3_column_text db slot row c).2.log = db.log ++ [.column_text slot c] := rfl

theorem prologue_trace (slot : Slot) (q : stmt_query) (db : Db) (username : String) :
    ∃ ev, (prologue slot q db username).db.log = db.log ++ ev ∧
      (∀ c ∈ ev, ∀ s, isStep s c = false) ∧ (∀ c ∈ ev, isFinalize c = false) ∧
      (q.stmt = none → ∃ tl, ev = .prepare slot q.query q.query_length :: tl) ∧
      (∀ s, prepareCalls s ev ≤ (if q.stmt = none ∧ s = slot then 1 else 0)) ∧
      (∀ c ∈ ev, ∀ s, s ≠ slot → isPrepare s c = false) := by
  unfold prologue
  by_cases hs : q.stmt = none
  · simp only [hs, if_true]
    split_ifs <;> simp [Setup.db, isStep, isFinalize, prepareCalls, isPrepare] <;>
      refine ⟨fun s => ?_, fun s hs h1 => hs h1.symm⟩ <;>
      (split_ifs with h <;> simp_all [List.countP_cons, isPrepare]; exact fun h1 => h h1.symm)
  · simp only [hs, if_false]
    split_ifs <;> simp_all [Setup.db, isStep, isFinalize, prepareCalls, isPrepare]

theorem acl_row_log (E : Host) (clientid username topic : String) (col : Option String)
    (result : Verdict) (db : Db) :
    ∃ ev, (acl_row E clientid username topic col result db).2.log = db.log ++ ev ∧
      (∀ c ∈ ev, ∀ s, isStep s c = false) ∧ (∀ c ∈ ev, isFinalize c = false) ∧
      (∀ c ∈ ev, ∀ s, isPrepare s c = false) := by
  unfold acl_row sqlite3_column_text
  cases col with
  | none => simp [isStep, isFinalize, isPrepare]
  | some pat =>
    cases hx : E.t_expand clientid username pat with
    | none => simp [isStep, isFinalize, isPrepare, hx]
    | some e => by_cases he : e = "" <;> simp [isStep, isFinalize, isPrepare, hx, he]

theorem step_not_mem_of_no_step {ev : List Call} (h : ∀ c ∈ ev, ∀ s, isStep s c = false)
    (slot : Slot) (rc : Nat) : Call.step slot rc ∉ ev := by
  intro hm
  have := h _ hm slot
  simp [isStep] at this

/-- The record of the row loop: a step that returned `SQLITE_ERROR` is in it
exactly when the loop ends with `res == SQLITE_ERROR`, and it is then the last
call of the loop. -/
theorem acl_loop_trace (E : Host) (clientid username topic : String) :
    ∀ (fuel : Nat) (result : Verdict) (res : Nat) (st : Option Stmt) (db : Db),
      res ≠ SQLITE_ERROR →
      ∃ ev, (acl_loop E clientid username topic fuel result res st db).2.2.2.log = db.log ++ ev ∧
        (Call.step .acl SQLITE_ERROR ∈ ev →
          (acl_loop E clientid username topic fuel result res st db).2.1 = SQLITE_ERROR) ∧
        ((acl_loop E clientid username topic fuel result res st db).2.1 = SQLITE_ERROR →
          ∃ pre, ev = pre ++ [.step .acl SQLITE_ERROR]) ∧
        (∀ c ∈ ev, isFinalize c = false) ∧ (∀ c ∈ ev, ∀ s, isPrepare s c = false) := by
  intro fuel
  induction fuel with
  | zero =>
    intro result res st db hres
    refine ⟨[], by simp [acl_loop], by simp, ?_, by simp, by simp⟩
    intro h
    exact absurd h hres
  | succ fuel ih =>
    intro result res st db hres
    rw [acl_loop]
    by_cases hd : result = .defer
    · simp only [hd, if_true]
      by_cases hrow : (sqlite3_step db .acl st).1 = SQLITE_ROW
      · simp only [hrow, if_true]
        obtain ⟨rev, hrev, hrfree, hrfin, hrprep⟩ := acl_row_log E clientid username topic
          (sqlite3_step db .acl st).2.1 .defer (sqlite3_step db .acl st).2.2.2
        obtain ⟨ev, hev, h1, h2, h3, h4⟩ := ih
          (acl_row E clientid username topic (sqlite3_step db .acl st).2.1 .defer
            (sqlite3_step db .acl st).2.2.2).1 SQLITE_ROW (sqlite3_step db .acl st).2.2.1
          (acl_row E clientid username topic (sqlite3_step db .acl st).2.1 .defer
            (sqlite3_step db .acl st).2.2.2).2 (by decide)
        refine ⟨[.step .acl SQLITE_ROW] ++ rev ++ ev, ?_, ?_, ?_, ?_, ?_⟩
        · rw [hev, hrev, sqlite3_step_log, hrow]; simp
        · intro hm
          apply h1
          simp only [List.mem_append, List.mem_singleton] at hm
          rcases hm with (hm | hm) | hm
          · have : SQLITE_ROW = SQLITE_ERROR := by injection hm.symm
            exact absurd this (by decide)
          · exact absurd hm (step_not_mem_of_no_step hrfree _ _)
          · exact hm
        · intro he
          obtain ⟨pre, hpre⟩ := h2 he
          exact ⟨[.step .acl SQLITE_ROW] ++ rev ++ pre, by rw [hpre]; simp⟩
        · intro c hc
          simp only [List.mem_append, List.mem_singleton] at hc
          rcases hc with (rfl | hc) | hc
          · rfl
          · exact hrfin c hc
          · exact h3 c hc
        · intro c hc
          simp only [List.mem_append, List.mem_singleton] at hc
          rcases hc with (rfl | hc) | hc
          · intro s; rfl
          · exact hrprep c hc
          · exact h4 c hc
      · simp only [hrow, if_false]
        refine ⟨[.step .acl (sqlite3_step db .acl st).1], by simp, ?_, ?_,
          by simp [isFinalize], by simp [isPrepare]⟩
        · intro hm
          simp only [List.mem_singleton] at hm
          injection hm.symm
        · intro he
          exact ⟨[], by simp [he]⟩
    · simp only [hd, if_false]
      refine ⟨[], by simp, by simp, ?_, by simp, by simp⟩
      intro h
      exact absurd h hres

theorem sqlite3_reset_rewound (db : Db) (slot : Slot) (st : Option Stmt) (s : Stmt)
    (h : (sqlite3_reset db slot st).2.1 = some s) : s.stepped = false := by
  cases st with
  | none => simp [sqlite3_reset] at h
  | some s0 =>
    simp only [sqlite3_reset, Option.some.injEq] at h
    rw [← h]

@[simp] theorem sqlite3_reset_none (db : Db) (slot : Slot) :
    (sqlite3_reset db slot none).2.1 = none := rfl

@[simp] theorem acl_out_log (conf : sqlite_backend) (q : stmt_query) (result : Verdict)
    (st : Option Stmt) (db : Db) :
    (acl_out conf q result st db).db.log = db.log ++ [.reset .acl] := by
  simp [acl_out]

@[simp] theorem acl_out_result (conf : sqlite_backend) (q : stmt_query) (result : Verdict)
    (st : Option Stmt) (db : Db) : (acl_out conf q result st db).result = result := rfl

@[simp] theorem acl_out_handle (conf : sqlite_backend) (q : stmt_query) (result : Verdict)
    (st : Option Stmt) (db : Db) :
    (acl_out conf q result st db).handle
      = some { conf with acl := some { q with stmt := (sqlite3_reset db .acl st).2.1 } } := rfl

theorem prologue_q (slot : Slot) (q : stmt_query) (db : Db) (username : String) :
    (prologue slot q db username).q.query = q.query ∧
    (prologue slot q db username).q.query_length = q.query_length ∧
    (∀ q1 d, prologue slot q db username = .ret q1 d → q1.stmt = none) := by
  unfold prologue
  by_cases hs : q.stmt = none
  · simp only [hs, if_true]
    split_ifs with h1 <;> simp [Setup.q]
    exact prepareStatement_stmt_of_false db slot q h1
  · simp only [hs, if_false]
    split_ifs <;> simp_all [Setup.q]

theorem prepareCalls_append (slot : Slot) (a b : List Call) :
    prepareCalls slot (a ++ b) = prepareCalls slot a + prepareCalls slot b := by
  simp [prepareCalls, List.countP_append]

theorem prepareCalls_eq_zero {slot : Slot} {ev : List Call}
    (h : ∀ c ∈ ev, ∀ s, isPrepare s c = false) : prepareCalls slot ev = 0 := by
  unfold prepareCalls
  rw [List.countP_eq_zero]
  intro c hc
  simp [h c hc slot]

/-- What one `be_sqlite_aclcheck` call on an instance with an ACL handle does,
whatever the engine answers. -/
theorem aclcheck_trace (E : Host) (conf : sqlite_backend) (acl : stmt_query) (db : Db)
    (clientid username topic : String) (acc : Int) (hacl : conf.acl = some acl) :
    ∃ ev q,
      (be_sqlite_aclcheck E (some conf) db clientid username topic acc).db.log = db.log ++ ev ∧
      (be_sqlite_aclcheck E (some conf) db clientid username topic acc).handle
        = some { conf with acl := some q } ∧
      q.query = acl.query ∧ q.query_length = acl.query_length ∧
      (∀ s, q.stmt = some s → s.stepped = false) ∧
      (acl.stmt = none → ∃ tl, ev = .prepare .acl acl.query acl.query_length :: tl) ∧
      (∀ s, prepareCalls s ev ≤ if acl.stmt = none ∧ s = .acl then 1 else 0) ∧
      (Call.step .acl SQLITE_ERROR ∈ ev →
        (be_sqlite_aclcheck E (some conf) db clientid username topic acc).result = .error ∧
        q.stmt = none ∧
        ∃ pre, ev = pre ++ [.step .acl SQLITE_ERROR, .finalize .acl, .reset .acl]) := by
  obtain ⟨pev, hplog, hpstep, hpfin, hpprep, hpcount, -⟩ :=
    prologue_trace .acl acl db username
  obtain ⟨hq1, hq2, hq3⟩ := prologue_q .acl acl db username
  unfold be_sqlite_aclcheck
  simp only [hacl]
  cases hp : prologue .acl acl db username with
  | ret q d =>
    rw [hp] at hplog hq1 hq2
    simp only [Setup.db, Setup.q] at hplog hq1 hq2
    refine ⟨pev, q, hplog, rfl, hq1, hq2, ?_, hpprep, hpcount, ?_⟩
    · intro s hs
      rw [hq3 q d hp] at hs
      cases hs
    · intro hm
      exact absurd hm (step_not_mem_of_no_step hpstep _ _)
  | out q d =>
    rw [hp] at hplog hq1 hq2
    simp only [Setup.db, Setup.q] at hplog hq1 hq2
    refine ⟨pev ++ [.reset .acl], { q with stmt := (sqlite3_reset d .acl q.stmt).2.1 }, ?_, rfl,
      hq1, hq2, ?_, ?_, ?_, ?_⟩
    · simp [hplog]
    · intro s hs
      exact sqlite3_reset_rewound d .acl q.stmt s hs
    · intro hn
      obtain ⟨tl, htl⟩ := hpprep hn
      exact ⟨tl ++ [.reset .acl], by simp [htl]⟩
    · intro s
      rw [prepareCalls_append]
      have : prepareCalls s [Call.reset .acl] = 0 := by simp [prepareCalls, isPrepare]
      rw [this]
      exact hpcount s
    · intro hm
      simp only [List.mem_append, List.mem_singleton] at hm
      rcases hm with hm | hm
      · exact absurd hm (step_not_mem_of_no_step hpstep _ _)
      · cases hm
  | bound q d =>
    rw [hp] at hplog hq1 hq2
    simp only [Setup.db, Setup.q] at hplog hq1 hq2
    simp only [acl_rows]
    by_cases hb : (sqlite3_bind_int d .acl q.stmt 2 acc).1 = SQLITE_OK
    · simp only [hb, ne_eq, not_true_eq_false, if_false, sqlite3_bind_int_steps]
      obtain ⟨lev, hllog, hl1, hl2, hlfin, hlprep⟩ := acl_loop_trace E clientid username topic
        (d.steps.length + 1) .defer SQLITE_OK
        (sqlite3_bind_int d .acl q.stmt 2 acc).2.1 (sqlite3_bind_int d .acl q.stmt 2 acc).2.2
        (by decide)
      by_cases he : (acl_loop E clientid username topic
          (d.steps.length + 1) .defer SQLITE_OK
          (sqlite3_bind_int d .acl q.stmt 2 acc).2.1
          (sqlite3_bind_int d .acl q.stmt 2 acc).2.2).2.1 = SQLITE_ERROR
      · simp only [he, if_true]
        obtain ⟨pre, hpre⟩ := hl2 he
        refine ⟨pev ++ [.bind_int .acl 2 acc] ++ lev ++ [.finalize .acl, .reset .acl],
          { q with stmt := none }, ?_, rfl, hq1, hq2, ?_, ?_, ?_, ?_⟩
        · simp [hllog, hplog]
        · intro s hs; cases hs
        · intro hn
          obtain ⟨tl, htl⟩ := hpprep hn
          exact ⟨tl ++ [.bind_int .acl 2 acc] ++ lev ++ [.finalize .acl, .reset .acl],
            by simp [htl]⟩
        · intro s
          simp only [prepareCalls_append, prepareCalls_eq_zero hlprep]
          have h1 : prepareCalls s [Call.bind_int .acl 2 acc] = 0 := by
            simp [prepareCalls, isPrepare]
          have h2 : prepareCalls s [Call.finalize .acl, Call.reset .acl] = 0 := by
            simp [prepareCalls, isPrepare]
          rw [h1, h2]
          exact hpcount s
        · intro _
          refine ⟨rfl, rfl, pev ++ [.bind_int .acl 2 acc] ++ pre, ?_⟩
          rw [hpre]; simp
      · simp only [he, if_false]
        refine ⟨pev ++ [.bind_int .acl 2 acc] ++ lev ++ [.reset .acl], _, ?_, rfl, hq1, hq2,
          ?_, ?_, ?_, ?_⟩
        · simp [hllog, hplog]
        · intro s hs
          exact sqlite3_reset_rewound _ .acl _ s hs
        · intro hn
          obtain ⟨tl, htl⟩ := hpprep hn
          exact ⟨tl ++ [.bind_int .acl 2 acc] ++ lev ++ [.reset .acl], by simp [htl]⟩
        · intro s
          simp only [prepareCalls_append, prepareCalls_eq_zero hlprep]
          have h1 : prepareCalls s [Call.bind_int .acl 2 acc] = 0 := by
            simp [prepareCalls, isPrepare]
          have h2 : prepareCalls s [Call.reset .acl] = 0 := by
            simp [prepareCalls, isPrepare]
          rw [h1, h2]
          exact hpcount s
        · intro hm
          simp only [List.mem_append, List.mem_singleton] at hm
          rcases hm with ((hm | hm) | hm) | hm
          · exact absurd hm (step_not_mem_of_no_step hpstep _ _)
          · cases hm
          · exact absurd (hl1 hm) he
          · cases hm
    · simp only [hb, ne_eq, not_false_eq_true, if_true]
      refine ⟨pev ++ [.bind_int .acl 2 acc] ++ [.reset .acl], _, ?_, rfl, hq1, hq2,
        ?_, ?_, ?_, ?_⟩
      · simp [hplog]
      · intro s hs
        exact sqlite3_reset_rewound _ .acl _ s hs
      · intro hn
        obtain ⟨tl, htl⟩ := hpprep hn
        exact ⟨tl ++ [.bind_int .acl 2 acc] ++ [.reset .acl], by simp [htl]⟩
      · intro s
        simp only [prepareCalls_append]
        have h1 : prepareCalls s [Call.bind_int .acl 2 acc] = 0 := by
          simp [prepareCalls, isPrepare]
        have h2 : prepareCalls s [Call.reset .acl] = 0 := by
          simp [prepareCalls, isPrepare]
        rw [h1, h2]
        exact hpcount s
      · intro hm
        simp only [List.mem_append, List.mem_singleton] at hm
        rcases hm with (hm | hm) | hm
        · exact absurd hm (step_not_mem_of_no_step hpstep _ _)
        · cases hm
        · cases hm

theorem errorsRecovered_append {Q P : Prop} {query : String} {len : Nat} {username : String}
    {ev L : List Call} {n : Nat}
    (hev : ∀ c ∈ ev, ∀ s, isStep s c = false)
    (hL : ErrorsRecovered Q P query len username n L) :
    ErrorsRecovered Q P query len username n (ev ++ L) := by
  induction ev with
  | nil => simpa using hL
  | cons c ev ih =>
    rw [List.cons_append, ErrorsRecovered]
    have hc := hev c (by simp) .user
    refine ⟨?_, ?_⟩
    · intro he
      rw [he] at hc
      simp [isStep] at hc
    · rw [hc]
      exact ih (fun x hx => hev x (by simp [hx]))

theorem errorsRecovered_of_noStep {Q P : Prop} {query : String} {len : Nat} {username : String}
    {ev : List Call} {n : Nat} (hev : ∀ c ∈ ev, ∀ s, isStep s c = false) :
    ErrorsRecovered Q P query len username n ev := by
  have h := errorsRecovered_append (Q := Q) (P := P) (L := []) (n := n) hev
    (show ErrorsRecovered Q P query len username n [] by simp [ErrorsRecovered])
  simpa using h

theorem errorsRecovered_step {Q P : Prop} {query : String} {len : Nat} {username : String}
    {L : List Call} {n rc : Nat} (hrc : rc ≠ SQLITE_ERROR)
    (hL : ErrorsRecovered Q P query len username (n - 1) L) :
    ErrorsRecovered Q P query len username n (.step .user rc :: L) := by
  rw [ErrorsRecovered]
  refine ⟨?_, ?_⟩
  · intro he
    injection he with _ h2
    exact absurd h2 hrc
  · simpa [isStep] using hL

theorem stepCalls_cons (slot : Slot) (c : Call) (l : List Call) :
    stepCalls slot (c :: l) = stepCalls slot l + if isStep slot c then 1 else 0 := by
  simp [stepCalls, List.countP_cons]

theorem errorsRecovered_elim {Q P : Prop} {query : String} {len : Nat} {username : String} :
    ∀ (pre post : List Call) (n : Nat),
      ErrorsRecovered Q P query len username n (pre ++ .step .user SQLITE_ERROR :: post) →
      stepCalls .user pre < n ∧ ∃ tl, post = .finalize .user :: tl ∧
        (stepCalls .user pre + 1 < n → ∃ tl1, tl = .prepare .user query len :: tl1 ∧
          (P → ∃ rc tl2, tl1 = .reset .user :: .clear_bindings .user ::
            .bind_text .user 1 username :: .step .user rc :: tl2)) ∧
        (¬ stepCalls .user pre + 1 < n → tl = [.reset .user] ∧ Q) := by
  intro pre
  induction pre with
  | nil =>
    intro post n h
    rw [List.nil_append, ErrorsRecovered] at h
    obtain ⟨hn, tl, h1, h2, h3⟩ := h.1 rfl
    refine ⟨by simpa [stepCalls] using hn, tl, h1, ?_, ?_⟩
    · intro hlt
      exact h2 (by simpa [stepCalls] using hlt)
    · intro hlt
      exact h3 (by simpa [stepCalls] using hlt)
  | cons c pre ih =>
    intro post n h
    rw [List.cons_append, ErrorsRecovered] at h
    obtain ⟨hn, tl, h1, h2, h3⟩ := ih post _ h.2
    rw [stepCalls_cons]
    by_cases hc : isStep .user c = true
    · simp only [hc, if_true] at hn h2 h3 ⊢
      refine ⟨by omega, tl, h1, ?_, ?_⟩
      · intro hlt
        exact h2 (by omega)
      · intro hlt
        exact h3 (by omega)
    · simp only [hc, Bool.false_eq_true, if_false, Nat.add_zero] at hn h2 h3 ⊢
      exact ⟨hn, tl, h1, h2, h3⟩

@[simp] theorem getuser_out_out_log (conf : sqlite_backend) (phash : Option String)
    (result : Verdict) (value : Option String) (q : stmt_query) (d : Db) :
    (getuser_out conf phash (.out result value q d)).db.log = d.log ++ [.reset .user] := by
  simp [getuser_out]

/-- The loop is left through its condition: only the reset of `out` follows. -/
theorem getuserTail_out (conf : sqlite_backend) (P : Prop) (username : String)
    (phash : Option String) (r : Nat)
    (value : Option String) (result : Verdict) (user : stmt_query) (db : Db)
    (hr : ¬ (1 < r ∧ value = none)) :
    GetuserTail conf P username r value result user db
      (getuser_out conf phash (.out result value user db)) := by
  refine ⟨[.reset .user], { user with stmt := (sqlite3_reset db .user user.stmt).2.1 },
    by simp, rfl, rfl, rfl, ?_, ?_, ?_, ?_, ?_, ?_⟩
  · intro s hs
    exact sqlite3_reset_rewound db .user user.stmt s hs
  · intro hn hv
    refine ⟨fun _ => ⟨rfl, hv, ?_⟩, fun h => absurd ⟨h, hv⟩ hr⟩
    simp [hn]
  · exact errorsRecovered_of_noStep (by simp [isStep])
  · intro h; exact h
  · intro h; simp at h
  · simp [isPrepare]

/-- The loop is left by a `goto out` after the calls `ev` of a failed opening. -/
theorem getuserTail_goto (conf : sqlite_backend) (P : Prop) (username : String)
    (phash : Option String) (r : Nat)
    (value : Option String) (result : Verdict) (user q : stmt_query) (db d : Db)
    (ev : List Call) (hr : 1 < r) (hP : ¬ P) (hlog : d.log = db.log ++ ev)
    (hstep : ∀ c ∈ ev, ∀ s, isStep s c = false)
    (hprep : user.stmt = none → ∃ tl, ev = .prepare .user user.query user.query_length :: tl)
    (hacl : ∀ c ∈ ev, ∀ s, s ≠ Slot.user → isPrepare s c = false)
    (hq1 : q.query = user.query) (hq2 : q.query_length = user.query_length) :
    GetuserTail conf P username r value result user db
      (getuser_out conf phash (.out .error value q d)) := by
  refine ⟨ev ++ [.reset .user], { q with stmt := (sqlite3_reset d .user q.stmt).2.1 },
    by simp [hlog], rfl, hq1, hq2, ?_, ?_, ?_, ?_, ?_, ?_⟩
  · intro s hs
    exact sqlite3_reset_rewound d .user q.stmt s hs
  · intro hn _
    refine ⟨fun h => absurd hr h, fun _ => ?_⟩
    obtain ⟨tl, htl⟩ := hprep hn
    exact ⟨tl ++ [.reset .user], by simp [htl], fun h => absurd h hP⟩
  · exact errorsRecovered_append hstep (errorsRecovered_of_noStep (by simp [isStep]))
  · intro _; rfl
  · intro _; rfl
  · intro c hc
    simp only [List.mem_append, List.mem_singleton] at hc
    rcases hc with hc | rfl
    · exact hacl c hc .acl (by decide)
    · rfl

/-- The call is left by the `return BACKEND_ERROR` of line 131. -/
theorem getuserTail_ret (conf : sqlite_backend) (P : Prop) (username : String)
    (phash : Option String) (r : Nat)
    (value : Option String) (result : Verdict) (user q : stmt_query) (db d : Db)
    (ev : List Call) (hr : 1 < r) (hP : ¬ P) (hlog : d.log = db.log ++ ev)
    (hstep : ∀ c ∈ ev, ∀ s, isStep s c = false)
    (hprep : user.stmt = none → ∃ tl, ev = .prepare .user user.query user.query_length :: tl)
    (hacl : ∀ c ∈ ev, ∀ s, s ≠ Slot.user → isPrepare s c = false)
    (hq1 : q.query = user.query) (hq2 : q.query_length = user.query_length)
    (hnone : q.stmt = none) :
    GetuserTail conf P username r value result user db
      (getuser_out conf phash (.ret q d)) := by
  refine ⟨ev, q, hlog, rfl, hq1, hq2, ?_, ?_, ?_, ?_, ?_, ?_⟩
  · intro s hs
    rw [hnone] at hs
    cases hs
  · intro hn _
    refine ⟨fun h => absurd hr h, fun _ => ?_⟩
    obtain ⟨tl, htl⟩ := hprep hn
    exact ⟨tl, htl, fun h => absurd h hP⟩
  · exact errorsRecovered_of_noStep hstep
  · intro _; rfl
  · intro _; rfl
  · intro c hc
    exact hacl c hc .acl (by decide)

/-- When nothing fails, the calls of an opening on an absent statement are the
prepare, the reset, the clear-bindings and the bind. -/
theorem opening_of_absent {P : Prop} {user : stmt_query} {username : String} {ev tl : List Call}
    (hopen : P → ev = openingCalls .user user username) (hn : user.stmt = none)
    (htl : ev = .prepare .user user.query user.query_length :: tl) (hp : P) :
    tl = [.reset .user, .clear_bindings .user, .bind_text .user 1 username] := by
  have h := hopen hp
  rw [htl] at h
  simp only [openingCalls, hn, if_true, List.singleton_append] at h
  injection h

/-- One more attempt, whose step did not return `SQLITE_ERROR`, before the rest
of the call: `ev` are the calls of its opening, `rc` the result of its step,
`more` what follows the step in the attempt. -/
theorem getuserTail_again (conf : sqlite_backend) (P : Prop) (username : String)
    (G : GetuserResult) (r : Nat)
    (value value1 : Option String) (result result1 : Verdict) (user user1 : stmt_query)
    (db d : Db) (ev more : List Call) (rc : Nat) (hr : 0 < r)
    (hlog : d.log = db.log ++ (ev ++ .step .user rc :: more))
    (hrc : rc ≠ SQLITE_ERROR)
    (hstep : ∀ c ∈ ev, ∀ s, isStep s c = false)
    (hmore : ∀ c ∈ more, ∀ s, isStep s c = false)
    (hprep : user.stmt = none → ∃ tl, ev = .prepare .user user.query user.query_length :: tl)
    (hopen : P → ev = openingCalls .user user username)
    (hacl : ∀ c ∈ ev, isPrepare .acl c = false)
    (hacl2 : ∀ c ∈ more, isPrepare .acl c = false)
    (hq1 : user1.query = user.query) (hq2 : user1.query_length = user.query_length)
    (hres : result = .error → result1 = .error)
    (h : GetuserTail conf P username r value1 result1 user1 d G) :
    GetuserTail conf P username (r + 1) value result user db G := by
  obtain ⟨T, q, h1, h2, h3, h4, h5, -, h7, h8, h9, h10⟩ := h
  refine ⟨ev ++ .step .user rc :: more ++ T, q, by rw [h1, hlog]; simp, h2,
    h3.trans hq1, h4.trans hq2, h5, ?_, ?_, fun hr => h8 (hres hr), ?_, ?_⟩
  · intro hn _
    refine ⟨fun hlt => absurd (by omega) hlt, fun _ => ?_⟩
    obtain ⟨tl, htl⟩ := hprep hn
    refine ⟨tl ++ .step .user rc :: more ++ T, by simp [htl], ?_⟩
    intro hp
    rw [opening_of_absent hopen hn htl hp]
    exact ⟨rc, more ++ T, by simp⟩
  · rw [List.append_assoc]
    apply errorsRecovered_append hstep
    rw [List.cons_append]
    apply errorsRecovered_step hrc
    apply errorsRecovered_append hmore
    rw [hq1, hq2] at h7
    simpa using h7
  · intro hm
    simp only [List.mem_append, List.mem_cons] at hm
    rcases hm with (hm | hm | hm) | hm
    · exact absurd hm (step_not_mem_of_no_step hstep _ _)
    · injection hm with _ h2
      exact absurd h2.symm hrc
    · exact absurd hm (step_not_mem_of_no_step hmore _ _)
    · exact h9 hm
  · intro c hc
    simp only [List.mem_append, List.mem_cons] at hc
    rcases hc with (hc | rfl | hc) | hc
    · exact hacl c hc
    · rfl
    · exact hacl2 c hc
    · exact h10 c hc

/-- One more attempt whose step returned `SQLITE_ERROR`, before the rest of the
call. -/
theorem getuserTail_error (conf : sqlite_backend) (P : Prop) (username : String)
    (G : GetuserResult) (r : Nat)
    (value : Option String) (result : Verdict) (user user1 : stmt_query)
    (db d : Db) (ev : List Call) (hr : 0 < r)
    (hlog : d.log = db.log ++ (ev ++ [.step .user SQLITE_ERROR, .finalize .user]))
    (hstep : ∀ c ∈ ev, ∀ s, isStep s c = false)
    (hprep : user.stmt = none → ∃ tl, ev = .prepare .user user.query user.query_length :: tl)
    (hopen : P → ev = openingCalls .user user username)
    (hacl : ∀ c ∈ ev, isPrepare .acl c = false)
    (hq1 : user1.query = user.query) (hq2 : user1.query_length = user.query_length)
    (hnone : user1.stmt = none)
    (h : GetuserTail conf P username r none .error user1 d G) :
    GetuserTail conf P username (r + 1) value result user db G := by
  obtain ⟨T, q, h1, h2, h3, h4, h5, h6, h7, h8, -, h10⟩ := h
  refine ⟨ev ++ [.step .user SQLITE_ERROR, .finalize .user] ++ T, q,
    by rw [h1, hlog, List.append_assoc], h2, h3.trans hq1, h4.trans hq2, h5,
    ?_, ?_, fun _ => h8 rfl, fun _ => h8 rfl, ?_⟩
  · intro hn _
    refine ⟨fun hlt => absurd (by omega) hlt, fun _ => ?_⟩
    obtain ⟨tl, htl⟩ := hprep hn
    refine ⟨tl ++ [.step .user SQLITE_ERROR, .finalize .user] ++ T, by simp [htl], ?_⟩
    intro hp
    rw [opening_of_absent hopen hn htl hp]
    exact ⟨SQLITE_ERROR, .finalize .user :: T, by simp⟩
  · rw [List.append_assoc]
    apply errorsRecovered_append hstep
    simp only [List.cons_append, List.nil_append]
    rw [ErrorsRecovered]
    rw [hq1, hq2] at h6 h7
    obtain ⟨h6a, h6b⟩ := h6 hnone rfl
    refine ⟨fun _ => ⟨by omega, T, rfl, ?_, ?_⟩, ?_⟩
    · intro hlt
      exact h6b (by omega)
    · intro hlt
      obtain ⟨hT, hp, hq⟩ := h6a (by omega)
      exact ⟨hT, hp, hq⟩
    · have hs : isStep .user (Call.step .user SQLITE_ERROR) = true := by simp [isStep]
      rw [if_pos hs, ErrorsRecovered]
      refine ⟨fun hc => (by cases hc), ?_⟩
      simpa [isStep] using h7
  · intro c hc
    simp only [List.mem_append, List.mem_cons, List.mem_singleton, List.not_mem_nil,
      or_false] at hc
    rcases hc with (hc | rfl | rfl) | hc
    · exact hacl c hc
    · rfl
    · rfl
    · exact h10 c hc

theorem sqlite3_finalize_rcs (db : Db) (slot : Slot) (st : Option Stmt) :
    (sqlite3_finalize db slot st).2.rcs = db.rcs := rfl

theorem sqlite3_column_text_rcs (db : Db) (slot : Slot) (row : Option String) (c : Nat) :
    (sqlite3_column_text db slot row c).2.rcs = db.rcs := rfl

theorem noFailure_of_rcs {db d : Db} (h : db.NoFailure) (hd : d.rcs = db.rcs) : d.NoFailure := by
  unfold Db.NoFailure at h ⊢
  rw [hd]; exact h

theorem sqlite3_step_rcs_eq (db : Db) (slot : Slot) (st : Option Stmt) :
    (sqlite3_step db slot st).2.2.2.rcs = db.rcs := by
  cases st <;> rfl

/-- What the part of a `be_sqlite_getuser` call from one evaluation of the loop
condition to the return does, whatever the engine answers. -/
theorem getuser_loop_tail (conf : sqlite_backend) (P : Prop) (phash : Option String)
    (username : String) :
    ∀ (r : Nat) (value : Option String) (result : Verdict) (user : stmt_query) (db : Db),
      (P → db.NoFailure) →
      GetuserTail conf P username r value result user db
        (getuser_out conf phash (getuser_loop username r value result user db)) := by
  intro r
  induction r with
  | zero =>
    intro value result user db _
    rw [getuser_loop]
    exact getuserTail_out conf P username phash 0 value result user db (by omega)
  | succ r ih =>
    intro value result user db hP
    rw [getuser_loop]
    by_cases hc : 0 < r ∧ value = none
    · rw [if_pos hc]
      obtain ⟨pev, hplog, hpstep, -, hpprep, -, hpacl⟩ := prologue_trace .user user db username
      obtain ⟨hq1, hq2, hq3⟩ := prologue_q .user user db username
      have hr : 1 < r + 1 := by omega
      have hpacl1 : ∀ c ∈ pev, isPrepare .acl c = false :=
        fun c hc => hpacl c hc .acl (by decide)
      have hok : P → ∃ d, prologue .user user db username
          = .bound { user with stmt := some { stepped := false, bound := [1] } } d ∧
          d.NoFailure ∧ d.steps = db.steps ∧ d.log = db.log ++ openingCalls .user user username :=
        fun hp => prologue_ok .user user db username (hP hp)
      unfold getuser_attempt
      cases hp : prologue .user user db username with
      | ret q d =>
        rw [hp] at hplog hq1 hq2
        have hnP : ¬ P := by
          intro h
          obtain ⟨d1, h1, -⟩ := hok h
          rw [hp] at h1
          cases h1
        exact getuserTail_ret conf P username phash (r + 1) value result user q db d pev hr hnP
          hplog hpstep hpprep hpacl hq1 hq2 (hq3 q d hp)
      | out q d =>
        rw [hp] at hplog hq1 hq2
        have hnP : ¬ P := by
          intro h
          obtain ⟨d1, h1, -⟩ := hok h
          rw [hp] at h1
          cases h1
        exact getuserTail_goto conf P username phash (r + 1) value result user q db d pev hr hnP
          hplog hpstep hpprep hpacl hq1 hq2
      | bound q d =>
        rw [hp] at hplog hq1 hq2
        simp only [Setup.db, Setup.q] at hplog hq1 hq2
        have hopen : P → pev = openingCalls .user user username := by
          intro h
          obtain ⟨d1, h1, -, -, h4⟩ := hok h
          rw [hp] at h1
          injection h1 with _ hd
          rw [← hd, hplog] at h4
          exact List.append_cancel_left h4
        have hdok : P → d.NoFailure := by
          intro h
          obtain ⟨d1, h1, h2, -⟩ := hok h
          rw [hp] at h1
          injection h1 with _ hd
          rw [hd]; exact h2
        simp only
        by_cases hrow : (sqlite3_step d .user q.stmt).1 = SQLITE_ROW
        · simp only [hrow, if_true]
          refine getuserTail_again conf P username _ r value _ result result user
            { q with stmt := (sqlite3_step d .user q.stmt).2.2.1 } db _
            pev [.column_text .user 0] SQLITE_ROW hc.1 ?_ (by decide) hpstep
            (by simp [isStep]) hpprep hopen hpacl1 (by simp [isPrepare]) hq1 hq2
            (fun h => h) (ih _ _ _ _ ?_)
          · simp [hplog, hrow]
          · intro h
            exact noFailure_of_rcs (hdok h)
              (by rw [sqlite3_column_text_rcs, sqlite3_step_rcs_eq])
        · simp only [hrow, if_false]
          by_cases herr : (sqlite3_step d .user q.stmt).1 = SQLITE_ERROR
          · simp only [herr, if_true]
            refine getuserTail_error conf P username _ r value result user
              { q with stmt := none } db
              (sqlite3_finalize (sqlite3_step d .user q.stmt).2.2.2 .user
                (sqlite3_step d .user q.stmt).2.2.1).2 pev
              hc.1 ?_ hpstep hpprep hopen hpacl1 hq1 hq2 rfl ?_
            · simp [hplog, herr]
            · have := ih value .error { q with stmt := none }
                (sqlite3_finalize (sqlite3_step d .user q.stmt).2.2.2 .user
                  (sqlite3_step d .user q.stmt).2.2.1).2
                (fun h => noFailure_of_rcs (hdok h)
                  (by rw [sqlite3_finalize_rcs, sqlite3_step_rcs_eq]))
              rw [hc.2] at this ⊢
              exact this
          · simp only [herr, if_false]
            refine getuserTail_again conf P username _ r value _ result result user
              { q with stmt := (sqlite3_step d .user q.stmt).2.2.1 } db _
              pev [] (sqlite3_step d .user q.stmt).1 hc.1 ?_ herr hpstep
              (by simp) hpprep hopen hpacl1 (by simp) hq1 hq2
              (fun h => h) (ih _ _ _ _ ?_)
            · simp [hplog]
            · intro h
              exact noFailure_of_rcs (hdok h) (sqlite3_step_rcs_eq _ _ _)
    · rw [if_neg hc]
      exact getuserTail_out conf P username phash (r + 1) value result user db
        (fun h => hc ⟨by omega, h.2⟩)

/-- What one `be_sqlite_getuser` call on an instance with a user handle does,
whatever the engine answers; `P` is any condition under which nothing fails. -/
theorem getuser_trace (P : Prop) (conf : sqlite_backend) (user : stmt_query) (db : Db)
    (username password : String) (phash : Option String) (clientid : String)
    (hu : conf.user = some user) (hP : P → db.NoFailure) :
    ∃ ev q,
      (be_sqlite_getuser (some conf) db username password phash clientid).db.log = db.log ++ ev ∧
      (be_sqlite_getuser (some conf) db username password phash clientid).handle
        = some { conf with user := some q } ∧
      q.query = user.query ∧ q.query_length = user.query_length ∧
      (∀ s, q.stmt = some s → s.stepped = false) ∧
      (user.stmt = none → ∃ tl, ev = .prepare .user user.query user.query_length :: tl ∧
        (P → ∃ rc tl2, tl = .reset .user :: .clear_bindings .user ::
          .bind_text .user 1 username :: .step .user rc :: tl2)) ∧
      ErrorsRecovered
        ((be_sqlite_getuser (some conf) db username password phash clientid).phash = none ∧
          q.stmt = none) P user.query user.query_length username 4 ev ∧
      (Call.step .user SQLITE_ERROR ∈ ev →
        (be_sqlite_getuser (some conf) db username password phash clientid).result = .error) ∧
      (∀ c ∈ ev, isPrepare .acl c = false) := by
  have h := getuser_loop_tail conf P phash username 5 none .defer user db hP
  have heq : be_sqlite_getuser (some conf) db username password phash clientid
      = getuser_out conf phash (getuser_loop username 5 none .defer user db) := by
    simp [be_sqlite_getuser, hu]
  rw [heq]
  obtain ⟨T, q, h1, h2, h3, h4, h5, h6, h7, -, h9, h10⟩ := h
  refine ⟨T, q, h1, h2, h3, h4, h5, ?_, h7, h9, h10⟩
  intro hn
  exact (h6 hn rfl).2 (by decide)

theorem token_user_eq (conf : sqlite_backend) (q : stmt_query) :
    token .user (some { conf with user := some q }) = q.stmt := rfl

theorem token_acl_eq (conf : sqlite_backend) (q : stmt_query) :
    token .acl (some { conf with acl := some q }) = q.stmt := rfl

theorem onlyTransient_head {db : Db} (h : db.OnlyTransient) :
    (db.steps.headD (SQLITE_DONE, none)).1 ≠ SQLITE_ROW ∧
    (db.steps.headD (SQLITE_DONE, none)).1 ≠ SQLITE_ERROR := by
  unfold Db.OnlyTransient at h
  cases hs : db.steps with
  | nil => exact ⟨by decide, by decide⟩
  | cons a l =>
    rw [hs] at h
    exact h a (by simp)

theorem getuser_attempt_transient (username : String) (value : Option String)
    (result : Verdict) (user : stmt_query) (db : Db)
    (hok : db.NoFailure) (htr : db.OnlyTransient) :
    ∃ user1 d, getuser_attempt username value result user db = .again value result user1 d ∧
      d.NoFailure ∧ d.OnlyTransient ∧
      stepCalls .user d.log = stepCalls .user db.log + 1 := by
  obtain ⟨d, hd, hn, hst, hlog⟩ := prologue_ok .user user db username hok
  have htr1 : d.OnlyTransient := by
    unfold Db.OnlyTransient at htr ⊢
    rw [hst]; exact htr
  obtain ⟨hrow, herr⟩ := onlyTransient_head htr1
  refine ⟨{ user with stmt := some { stepped := true, bound := [1] } },
    { d with steps := d.steps.tail,
             log := d.log ++ [.step .user (d.steps.headD (SQLITE_DONE, none)).1] }, ?_, ?_, ?_, ?_⟩
  · unfold getuser_attempt
    rw [hd]
    simp only [sqlite3_step, hrow, herr, if_false]
  · exact hn
  · unfold Db.OnlyTransient at htr1 ⊢
    intro s hs
    exact htr1 s (List.mem_of_mem_tail hs)
  · simp only [hlog, stepCalls_append, stepCalls_openingCalls]
    simp [stepCalls, isStep]

theorem getuser_loop_transient (username : String) :
    ∀ (r : Nat) (result : Verdict) (user : stmt_query) (db : Db),
      db.NoFailure → db.OnlyTransient →
      ∃ user1 d, getuser_loop username (r + 1) none result user db = .out result none user1 d ∧
        stepCalls .user d.log = stepCalls .user db.log + r := by
  intro r
  induction r with
  | zero =>
    intro result user db _ _
    exact ⟨user, db, by simp [getuser_loop], rfl⟩
  | succ r ih =>
    intro result user db hok htr
    obtain ⟨user1, d, hatt, hn, ht, hcount⟩ :=
      getuser_attempt_transient username none result user db hok htr
    obtain ⟨user2, d2, hloop, hcount2⟩ := ih result user1 d hn ht
    refine ⟨user2, d2, ?_, by rw [hcount2, hcount]; omega⟩
    rw [getuser_loop]
    simp only [Nat.zero_lt_succ, true_and, if_true, hatt]
    exact hloop

theorem sqlite3_prepare_rewound (db : Db) (slot : Slot) (query : String) (len : Nat) (s : Stmt)
    (h : (sqlite3_prepare db slot query len).2.1 = some s) : s.stepped = false := by
  unfold sqlite3_prepare at h
  simp only at h
  split at h
  · simp only [Option.some.injEq] at h
    rw [← h]
  · cases h

theorem rewound_init (dbpath userquery aclquery : Option String) (db : Db) (slot : Slot) :
    Rewound slot (be_sqlite_init dbpath userquery aclquery db).1 := by
  unfold be_sqlite_init
  cases dbpath with
  | none => intro s hs; simp [token] at hs
  | some path =>
    cases userquery with
    | none => intro s hs; simp [token] at hs
    | some uq =>
      simp only
      split
      · intro s hs; simp [token] at hs
      · cases aclquery with
        | none =>
          intro s hs
          cases slot with
          | user =>
            simp only [token, sqlite_backend.slot, prepareStatement] at hs
            exact sqlite3_prepare_rewound _ _ _ _ s hs
          | acl => simp [token, sqlite_backend.slot] at hs
        | some aq =>
          intro s hs
          cases slot with
          | user =>
            simp only [token, sqlite_backend.slot, prepareStatement] at hs
            exact sqlite3_prepare_rewound _ _ _ _ s hs
          | acl =>
            simp only [token, sqlite_backend.slot, prepareStatement] at hs
            exact sqlite3_prepare_rewound _ _ _ _ s hs

theorem rewound_getuser (handle : Option sqlite_backend) (db : Db)
    (username password : String) (phash : Option String) (clientid : String)
    (h : ∀ slot, Rewound slot handle) :
    ∀ slot, Rewound slot (be_sqlite_getuser handle db username password phash clientid).handle := by
  cases handle with
  | none => exact h
  | some conf =>
    cases hu : conf.user with
    | none =>
      have heq : (be_sqlite_getuser (some conf) db username password phash clientid).handle
          = some conf := by simp [be_sqlite_getuser, hu]
      rw [heq]; exact h
    | some user =>
      obtain ⟨ev, q, -, h2, -, -, h5, -⟩ :=
        getuser_trace False conf user db username password phash clientid hu False.elim
      rw [h2]
      intro slot
      cases slot with
      | user => exact fun s hs => h5 s hs
      | acl => exact h .acl

theorem rewound_aclcheck (E : Host) (handle : Option sqlite_backend) (db : Db)
    (clientid username topic : String) (acc : Int)
    (h : ∀ slot, Rewound slot handle) :
    ∀ slot, Rewound slot (be_sqlite_aclcheck E handle db clientid username topic acc).handle := by
  cases handle with
  | none => exact h
  | some conf =>
    cases ha : conf.acl with
    | none =>
      have heq : (be_sqlite_aclcheck E (some conf) db clientid username topic acc).handle
          = some conf := by simp [be_sqlite_aclcheck, ha]
      rw [heq]; exact h
    | some acl =>
      obtain ⟨ev, q, -, h2, -, -, h5, -⟩ :=
        aclcheck_trace E conf acl db clientid username topic acc ha
      rw [h2]
      intro slot
      cases slot with
      | user => exact h .user
      | acl => exact fun s hs => h5 s hs

theorem rewound_serveAll (E : Host) (reqs : List Request) :
    ∀ st : Option sqlite_backend × Db, (∀ slot, Rewound slot st.1) →
      ∀ slot, Rewound slot (serveAll E st reqs).1 := by
  induction reqs with
  | nil => intro st h; exact h
  | cons req reqs ih =>
    intro st h
    unfold serveAll
    rw [List.foldl_cons]
    apply ih
    cases req with
    | getuser username password phash clientid =>
      exact rewound_getuser st.1 st.2 username password phash clientid h
    | aclcheck clientid username topic acc =>
      exact rewound_aclcheck E st.1 st.2 clientid username topic acc h

theorem prepareCalls_openingCalls (s slot : Slot) (q : stmt_query) (username : String) :
    prepareCalls s (openingCalls slot q username)
      = if q.stmt = none ∧ s = slot then 1 else 0 := by
  unfold openingCalls prepareCalls
  by_cases hq : q.stmt = none
  · by_cases hs : s = slot
    · simp [hq, hs, isPrepare, List.countP_cons]
    · have hs2 : ¬ slot = s := fun h => hs h.symm
      simp [hq, hs, hs2, isPrepare, List.countP_cons]
  · simp [hq, isPrepare, List.countP_cons]

theorem noStepError_head {db : Db} (h : db.NoStepError) :
    (db.steps.headD (SQLITE_DONE, none)).1 ≠ SQLITE_ERROR := by
  unfold Db.NoStepError at h
  cases hs : db.steps with
  | nil => decide
  | cons a l =>
    rw [hs] at h
    exact h a (by simp)

theorem noStepError_tail {db d : Db} (h : db.NoStepError) (hd : d.steps = db.steps.tail) :
    d.NoStepError := by
  unfold Db.NoStepError at h ⊢
  intro s hs
  rw [hd] at hs
  exact h s (List.mem_of_mem_tail hs)

theorem noStepError_same {db d : Db} (h : db.NoStepError) (hd : d.steps = db.steps) :
    d.NoStepError := by
  unfold Db.NoStepError at h ⊢
  rw [hd]; exact h

theorem getuser_attempt_clean (username : String) (value : Option String)
    (result : Verdict) (user : stmt_query) (db : Db)
    (hok : db.NoFailure) (hne : db.NoStepError) :
    ∃ value1 user1 d, getuser_attempt username value result user db
        = .again value1 result user1 d ∧
      d.NoFailure ∧ d.NoStepError ∧ user1.stmt ≠ none ∧
      ∀ s, prepareCalls s d.log
        = prepareCalls s db.log + if user.stmt = none ∧ s = .user then 1 else 0 := by
  obtain ⟨d, hd, hn, hst, hlog⟩ := prologue_ok .user user db username hok
  have hne1 : d.NoStepError := noStepError_same hne hst
  have herr := noStepError_head hne1
  by_cases hrow : (d.steps.headD (SQLITE_DONE, none)).1 = SQLITE_ROW
  · refine ⟨if (d.steps.headD (SQLITE_DONE, none)).2.isSome
        then (d.steps.headD (SQLITE_DONE, none)).2 else value,
      { user with stmt := some { stepped := true, bound := [1] } },
      { d with steps := d.steps.tail,
               log := d.log ++ [.step .user SQLITE_ROW, .column_text .user 0] },
      ?_, hn, noStepError_tail hne1 rfl, by simp, ?_⟩
    · unfold getuser_attempt
      rw [hd]
      simp only [sqlite3_step, hrow, if_true, sqlite3_column_text, Db.record,
        List.append_assoc, List.singleton_append]
    · intro s
      simp only [hlog, prepareCalls_append, prepareCalls_openingCalls]
      simp [prepareCalls, isPrepare]
  · refine ⟨value, { user with stmt := some { stepped := true, bound := [1] } },
      { d with steps := d.steps.tail,
               log := d.log ++ [.step .user (d.steps.headD (SQLITE_DONE, none)).1] },
      ?_, hn, noStepError_tail hne1 rfl, by simp, ?_⟩
    · unfold getuser_attempt
      rw [hd]
      simp only [sqlite3_step, hrow, herr, if_false]
    · intro s
      simp only [hlog, prepareCalls_append, prepareCalls_openingCalls]
      simp [prepareCalls, isPrepare]

theorem getuser_loop_clean (username : String) :
    ∀ (r : Nat) (value : Option String) (result : Verdict) (user : stmt_query) (db : Db),
      db.NoFailure → db.NoStepError →
      ∃ result1 value1 user1 d,
        getuser_loop username r value result user db = .out result1 value1 user1 d ∧
        d.NoFailure ∧ d.NoStepError ∧
        (∀ s, prepareCalls s d.log + (if user1.stmt = none ∧ s = .user then 1 else 0)
          = prepareCalls s db.log + if user.stmt = none ∧ s = .user then 1 else 0) := by
  intro r
  induction r with
  | zero =>
    intro value result user db hok hne
    exact ⟨result, value, user, db, by simp [getuser_loop], hok, hne, fun _ => rfl⟩
  | succ r ih =>
    intro value result user db hok hne
    rw [getuser_loop]
    by_cases hc : 0 < r ∧ value = none
    · rw [if_pos hc]
      obtain ⟨value1, user1, d, hatt, hn, hs, hsome, hcount⟩ :=
        getuser_attempt_clean username value result user db hok hne
      obtain ⟨result2, value2, user2, d2, hloop, hn2, hs2, hcount2⟩ :=
        ih value1 result user1 d hn hs
      refine ⟨result2, value2, user2, d2, by rw [hatt]; exact hloop, hn2, hs2, ?_⟩
      intro s
      rw [hcount2 s, hcount s]
      simp [hsome]
    · rw [if_neg hc]
      exact ⟨result, value, user, db, rfl, hok, hne, fun _ => rfl⟩

theorem sqlite3_reset_noFailure {db : Db} (h : db.NoFailure) (slot : Slot) (st : Option Stmt) :
    (sqlite3_reset db slot st).2.2.NoFailure := by
  cases st with
  | none => exact h
  | some s => exact Db.result_noFailure h _

theorem sqlite3_reset_eq_none (db : Db) (slot : Slot) (st : Option Stmt) :
    (sqlite3_reset db slot st).2.1 = none ↔ st = none := by
  cases st <;> simp [sqlite3_reset]

/-- A `be_sqlite_getuser` call in which nothing fails and no step returns the
error status: the prepares made plus the prepare still pending stay the same. -/
theorem getuser_clean (handle : Option sqlite_backend) (db : Db)
    (username password : String) (phash : Option String) (clientid : String)
    (hok : db.NoFailure) (hne : db.NoStepError) :
    (be_sqlite_getuser handle db username password phash clientid).db.NoFailure ∧
    (be_sqlite_getuser handle db username password phash clientid).db.NoStepError ∧
    ∀ s, prepareCalls s (be_sqlite_getuser handle db username password phash clientid).db.log
        + pending s (be_sqlite_getuser handle db username password phash clientid).handle
      = prepareCalls s db.log + pending s handle := by
  cases handle with
  | none => exact ⟨hok, hne, fun _ => rfl⟩
  | some conf =>
    cases hu : conf.user with
    | none =>
      have heq : be_sqlite_getuser (some conf) db username password phash clientid
          = { result := .defer, phash := phash, handle := some conf, db := db } := by
        simp [be_sqlite_getuser, hu]
      rw [heq]
      exact ⟨hok, hne, fun _ => rfl⟩
    | some user =>
      obtain ⟨result1, value1, user1, d, hloop, hn, hs, hcount⟩ :=
        getuser_loop_clean username 5 none .defer user db hok hne
      have heq : be_sqlite_getuser (some conf) db username password phash clientid
          = getuser_out conf phash (.out result1 value1 user1 d) := by
        simp [be_sqlite_getuser, hu, hloop]
      rw [heq]
      refine ⟨sqlite3_reset_noFailure hn _ _, noStepError_same hs (by simp [getuser_out]), ?_⟩
      intro s
      rw [getuser_out_out_log, prepareCalls_append]
      have h0 : prepareCalls s [Call.reset .user] = 0 := by simp [prepareCalls, isPrepare]
      rw [h0, Nat.add_zero]
      cases s with
      | user =>
        have := hcount .user
        simp only [and_true] at this
        simp only [getuser_out, pending, sqlite_backend.slot, sqlite3_reset_eq_none, hu]
        exact this
      | acl =>
        have := hcount .acl
        simp only [and_false, if_false, Nat.add_zero, reduceCtorEq] at this
        simp only [getuser_out, pending, sqlite_backend.slot]
        rw [this]

theorem acl_row_db (E : Host) (clientid username topic : String) (col : Option String)
    (result : Verdict) (db : Db) :
    (acl_row E clientid username topic col result db).2.steps = db.steps ∧
    (acl_row E clientid username topic col result db).2.rcs = db.rcs := by
  unfold acl_row sqlite3_column_text
  cases col with
  | none => simp
  | some pat =>
    cases hx : E.t_expand clientid username pat with
    | none => simp [hx]
    | some e => by_cases he : e = "" <;> simp [hx, he]

theorem sqlite3_step_rcs (db : Db) (slot : Slot) (st : Option Stmt) :
    (sqlite3_step db slot st).2.2.2.rcs = db.rcs := by
  cases st <;> rfl

theorem sqlite3_step_noStepError {db : Db} (h : db.NoStepError) (slot : Slot)
    (st : Option Stmt) :
    (sqlite3_step db slot st).1 ≠ SQLITE_ERROR ∧ (sqlite3_step db slot st).2.2.2.NoStepError := by
  cases st with
  | none => exact ⟨(by show SQLITE_MISUSE ≠ SQLITE_ERROR; decide), h⟩
  | some s => exact ⟨noStepError_head h, noStepError_tail h rfl⟩

theorem sqlite3_step_stmt (db : Db) (slot : Slot) (st : Option Stmt) (h : st ≠ none) :
    (sqlite3_step db slot st).2.2.1 ≠ none := by
  cases st with
  | none => exact absurd rfl h
  | some s => simp [sqlite3_step]

theorem acl_loop_clean (E : Host) (clientid username topic : String) :
    ∀ (fuel : Nat) (result : Verdict) (res : Nat) (st : Option Stmt) (db : Db),
      res ≠ SQLITE_ERROR → db.NoStepError → st ≠ none →
      (acl_loop E clientid username topic fuel result res st db).2.1 ≠ SQLITE_ERROR ∧
      (acl_loop E clientid username topic fuel result res st db).2.2.2.NoStepError ∧
      (acl_loop E clientid username topic fuel result res st db).2.2.2.rcs = db.rcs ∧
      (acl_loop E clientid username topic fuel result res st db).2.2.1 ≠ none := by
  intro fuel
  induction fuel with
  | zero =>
    intro result res st db hres hne hst
    exact ⟨hres, hne, rfl, hst⟩
  | succ fuel ih =>
    intro result res st db hres hne hst
    rw [acl_loop]
    obtain ⟨hs1, hs2⟩ := sqlite3_step_noStepError hne .acl st
    by_cases hd : result = .defer
    · simp only [hd, if_true]
      by_cases hrow : (sqlite3_step db .acl st).1 = SQLITE_ROW
      · simp only [hrow, if_true]
        obtain ⟨hr1, hr2⟩ := acl_row_db E clientid username topic
          (sqlite3_step db .acl st).2.1 .defer (sqlite3_step db .acl st).2.2.2
        obtain ⟨i1, i2, i3, i4⟩ := ih
          (acl_row E clientid username topic (sqlite3_step db .acl st).2.1 .defer
            (sqlite3_step db .acl st).2.2.2).1 SQLITE_ROW (sqlite3_step db .acl st).2.2.1
          (acl_row E clientid username topic (sqlite3_step db .acl st).2.1 .defer
            (sqlite3_step db .acl st).2.2.2).2 (by decide) (noStepError_same hs2 hr1)
          (sqlite3_step_stmt db .acl st hst)
        exact ⟨i1, i2, by rw [i3, hr2, sqlite3_step_rcs], i4⟩
      · simp only [hrow, if_false]
        exact ⟨hs1, hs2, sqlite3_step_rcs db .acl st, sqlite3_step_stmt db .acl st hst⟩
    · simp only [hd, if_false]
      exact ⟨hres, hne, trivial, hst⟩

theorem noFailure_same {db d : Db} (h : db.NoFailure) (hd : d.rcs = db.rcs) : d.NoFailure := by
  unfold Db.NoFailure at h ⊢
  rw [hd]; exact h

/-- A `be_sqlite_aclcheck` call in which nothing fails and no step returns the
error status: the prepares made plus the prepare still pending stay the same. -/
theorem aclcheck_clean (E : Host) (handle : Option sqlite_backend) (db : Db)
    (clientid username topic : String) (acc : Int)
    (hok : db.NoFailure) (hne : db.NoStepError) :
    (be_sqlite_aclcheck E handle db clientid username topic acc).db.NoFailure ∧
    (be_sqlite_aclcheck E handle db clientid username topic acc).db.NoStepError ∧
    ∀ s, prepareCalls s (be_sqlite_aclcheck E handle db clientid username topic acc).db.log
        + pending s (be_sqlite_aclcheck E handle db clientid username topic acc).handle
      = prepareCalls s db.log + pending s handle := by
  cases handle with
  | none => exact ⟨hok, hne, fun _ => rfl⟩
  | some conf =>
    cases ha : conf.acl with
    | none =>
      have heq : be_sqlite_aclcheck E (some conf) db clientid username topic acc
          = { result := .allow, handle := some conf, db := db } := by
        simp [be_sqlite_aclcheck, ha]
      rw [heq]
      exact ⟨hok, hne, fun _ => rfl⟩
    | some acl =>
      obtain ⟨d, s0, q, hn, hst, hlog, heq⟩ :=
        aclcheck_reaches_loop E conf acl db clientid username topic acc ha hok
      obtain ⟨c1, c2, c3, c4⟩ := acl_loop_clean E clientid username topic
        (db.steps.length + 1) .defer SQLITE_OK (some s0) d (by decide)
        (noStepError_same hne hst) (by simp)
      obtain ⟨lev, hllog, -, -, -, hlprep⟩ := acl_loop_trace E clientid username topic
        (db.steps.length + 1) .defer SQLITE_OK (some s0) d (by decide)
      rw [if_neg c1] at heq
      rw [heq]
      refine ⟨sqlite3_reset_noFailure (noFailure_same hn c3) _ _,
        noStepError_same c2 (by simp [acl_out]), ?_⟩
      intro s
      rw [acl_out_log, hllog, hlog]
      simp only [prepareCalls_append, prepareCalls_openingCalls, prepareCalls_eq_zero hlprep]
      have h0 : prepareCalls s [Call.reset .acl] = 0 := by simp [prepareCalls, isPrepare]
      have h1 : prepareCalls s [Call.bind_int .acl 2 acc] = 0 := by simp [prepareCalls, isPrepare]
      rw [h0, h1]
      cases s with
      | user =>
        simp only [acl_out, pending, sqlite_backend.slot]
        simp
      | acl =>
        simp only [acl_out, pending, sqlite_backend.slot, sqlite3_reset_eq_none, ha, c4,
          if_false, and_true]
        omega

theorem serve_clean (E : Host) (st : Option sqlite_backend × Db) (req : Request)
    (hok : st.2.NoFailure) (hne : st.2.NoStepError) :
    (serve E st req).2.NoFailure ∧ (serve E st req).2.NoStepError ∧
    ∀ s, prepareCalls s (serve E st req).2.log + pending s (serve E st req).1
      = prepareCalls s st.2.log + pending s st.1 := by
  cases req with
  | getuser username password phash clientid =>
    exact getuser_clean st.1 st.2 username password phash clientid hok hne
  | aclcheck clientid username topic acc =>
    exact aclcheck_clean E st.1 st.2 clientid username topic acc hok hne

theorem serveAll_clean (E : Host) (reqs : List Request) :
    ∀ st : Option sqlite_backend × Db, st.2.NoFailure → st.2.NoStepError →
      ∀ s, prepareCalls s (serveAll E st reqs).2.log + pending s (serveAll E st reqs).1
        = prepareCalls s st.2.log + pending s st.1 := by
  induction reqs with
  | nil => intro st _ _ s; rfl
  | cons req reqs ih =>
    intro st hok hne s
    obtain ⟨h1, h2, h3⟩ := serve_clean E st req hok hne
    unfold serveAll
    rw [List.foldl_cons]
    have := ih (serve E st req) h1 h2 s
    unfold serveAll at this
    rw [this, h3 s]

theorem pending_le_one (s : Slot) (handle : Option sqlite_backend) : pending s handle ≤ 1 := by
  unfold pending
  cases handle with
  | none => simp
  | some conf =>
    simp only
    cases conf.slot s with
    | none => simp
    | some q => simp only; split <;> simp

theorem init_clean (dbpath userquery aclquery : Option String) (db : Db)
    (hok : db.NoFailure) (hne : db.NoStepError) :
    (be_sqlite_init dbpath userquery aclquery db).2.NoFailure ∧
    (be_sqlite_init dbpath userquery aclquery db).2.NoStepError ∧
    ∀ s, prepareCalls s (be_sqlite_init dbpath userquery aclquery db).2.log
        + pending s (be_sqlite_init dbpath userquery aclquery db).1
      ≤ prepareCalls s db.log + 1 := by
  unfold be_sqlite_init
  cases dbpath with
  | none => exact ⟨hok, hne, fun s => by simp [pending]⟩
  | some path =>
    cases userquery with
    | none => exact ⟨hok, hne, fun s => by simp [pending]⟩
    | some uq =>
      have h1 := Db.result_fst hok (.open_v2 path)
      have n1 := Db.result_noFailure hok (.open_v2 path)
      have h2 := Db.result_fst n1 (.prepare .user uq uq.utf8ByteSize)
      have n2 := Db.result_noFailure n1 (.prepare .user uq uq.utf8ByteSize)
      simp only [sqlite3_open_v2, h1, ne_eq, not_true_eq_false, if_false]
      cases aclquery with
      | none =>
        refine ⟨n2, noStepError_same hne rfl, ?_⟩
        intro s
        simp only [prepareStatement, sqlite3_prepare, h2, if_true, pending, sqlite_backend.slot]
        cases s <;> simp [prepareCalls, isPrepare, List.countP_append, List.countP_cons]
      | some aq =>
        have h3 := Db.result_fst n2 (.prepare .acl aq aq.utf8ByteSize)
        have n3 := Db.result_noFailure n2 (.prepare .acl aq aq.utf8ByteSize)
        refine ⟨n3, noStepError_same hne rfl, ?_⟩
        intro s
        simp only [prepareStatement, sqlite3_prepare, h2, h3, if_true, pending,
          sqlite_backend.slot]
        cases s <;> simp [prepareCalls, isPrepare, List.countP_append, List.countP_cons]

theorem prepareCalls_cons_prepare (slot : Slot) (query : String) (len : Nat) (tl : List Call) :
    prepareCalls slot (.prepare slot query len :: tl) = prepareCalls slot tl + 1 := by
  simp [prepareCalls, isPrepare, List.countP_cons]

/-- The bound of `acl_loop` is never what ends the loop: with more than
`db.steps.length` iterations allowed, allowing still more changes nothing. -/
theorem acl_loop_fuel (E : Host) (clientid username topic : String) :
    ∀ (fuel k : Nat) (result : Verdict) (res : Nat) (st : Option Stmt) (db : Db),
      db.steps.length < fuel →
      acl_loop E clientid username topic (fuel + k) result res st db
        = acl_loop E clientid username topic fuel result res st db := by
  intro fuel
  induction fuel with
  | zero => intro k result res st db h; exact absurd h (Nat.not_lt_zero _)
  | succ fuel ih =>
    intro k result res st db h
    have hk : fuel + 1 + k = (fuel + k) + 1 := by omega
    rw [hk, acl_loop, acl_loop]
    by_cases hd : result = .defer
    · simp only [hd, if_true]
      by_cases hrow : (sqlite3_step db .acl st).1 = SQLITE_ROW
      · simp only [hrow, if_true]
        apply ih
        rw [(acl_row_db E clientid username topic _ _ _).1]
        cases st with
        | none =>
          have hm : SQLITE_MISUSE = SQLITE_ROW := hrow
          exact absurd hm (by decide)
        | some s =>
          cases hs : db.steps with
          | nil =>
            rw [sqlite3_step, hs] at hrow
            have hm : SQLITE_DONE = SQLITE_ROW := hrow
            exact absurd hm (by decide)
          | cons a l =>
            rw [hs] at h
            simp only [sqlite3_step, hs, List.tail_cons]
            simp only [List.length_cons] at h
            omega
      · simp only [hrow, if_false]
    · simp only [hd, if_false]

/-- After a `be_sqlite_getuser` call in which nothing fails and no step returns
the error status, the user statement is live, and the call prepared it exactly
when it was absent. -/
theorem getuser_clean_token (conf : sqlite_backend) (user : stmt_query) (db : Db)
    (username password : String) (phash : Option String) (clientid : String)
    (hu : conf.user = some user) (hok : db.NoFailure) (hne : db.NoStepError) :
    token .user (be_sqlite_getuser (some conf) db username password phash clientid).handle
      ≠ none ∧
    prepareCalls .user (be_sqlite_getuser (some conf) db username password phash clientid).db.log
      = prepareCalls .user db.log + if user.stmt = none then 1 else 0 := by
  obtain ⟨ev, q, h1, h2, -, -, -, h6, -⟩ :=
    getuser_trace False conf user db username password phash clientid hu False.elim
  obtain ⟨-, -, c3⟩ := getuser_clean (some conf) db username password phash clientid hok hne
  have hc := c3 .user
  rw [h2, h1, prepareCalls_append] at hc
  rw [h2, h1, prepareCalls_append, token_user_eq]
  have hp1 : pending .user (some { conf with user := some q })
      = if q.stmt = none then 1 else 0 := rfl
  have hp2 : pending .user (some conf) = if user.stmt = none then 1 else 0 := by
    simp [pending, sqlite_backend.slot, hu]
  rw [hp1, hp2] at hc
  by_cases hn : user.stmt = none
  · obtain ⟨tl, htl, -⟩ := h6 hn
    rw [htl, prepareCalls_cons_prepare] at hc ⊢
    simp only [hn, if_true] at hc ⊢
    by_cases hq : q.stmt = none
    · simp only [hq, if_true] at hc
      omega
    · simp only [hq, if_false] at hc
      exact ⟨hq, by omega⟩
  · simp only [hn, if_false] at hc ⊢
    by_cases hq : q.stmt = none
    · simp only [hq, if_true] at hc
      omega
    · simp only [hq, if_false] at hc
      exact ⟨hq, by omega⟩

theorem acl_row_verdict (E : Host) (clientid username topic : String) (col : Option String)
    (result : Verdict) (db : Db) :
    (acl_row E clientid username topic col result db).1 = result ∨
    (acl_row E clientid username topic col result db).1 = .allow := by
  unfold acl_row sqlite3_column_text
  cases col with
  | none => simp
  | some pat =>
    cases hx : E.t_expand clientid username pat with
    | none => simp [hx]
    | some e =>
      by_cases he : e = ""
      · simp [hx, he]
      · by_cases hm : E.topic_matches_sub e topic <;> simp [hx, he, hm]

/-- The row loop never produces Error: its verdict is the one it started with
or Allow. -/
theorem acl_loop_verdict (E : Host) (clientid username topic : String) :
    ∀ (fuel : Nat) (result : Verdict) (res : Nat) (st : Option Stmt) (db : Db),
      (acl_loop E clientid username topic fuel result res st db).1 = result ∨
      (acl_loop E clientid username topic fuel result res st db).1 = .allow := by
  intro fuel
  induction fuel with
  | zero => intro result res st db; exact Or.inl rfl
  | succ fuel ih =>
    intro result res st db
    rw [acl_loop]
    by_cases hd : result = .defer
    · simp only [hd, if_true]
      by_cases hrow : (sqlite3_step db .acl st).1 = SQLITE_ROW
      · simp only [hrow, if_true]
        rcases ih (acl_row E clientid username topic (sqlite3_step db .acl st).2.1 .defer
            (sqlite3_step db .acl st).2.2.2).1 SQLITE_ROW (sqlite3_step db .acl st).2.2.1
            (acl_row E clientid username topic (sqlite3_step db .acl st).2.1 .defer
              (sqlite3_step db .acl st).2.2.2).2 with h | h
        · rcases acl_row_verdict E clientid username topic (sqlite3_step db .acl st).2.1 .defer
            (sqlite3_step db .acl st).2.2.2 with h1 | h1
          · exact Or.inl (h.trans h1)
          · exact Or.inr (h.trans h1)
        · exact Or.inr h
      · simp only [hrow, if_false]
        exact Or.inl trivial
    · simp only [hd, if_false]
      exact Or.inl trivial

/-- The row loop entered with `result == BACKEND_DEFER` starts with a step. -/
theorem acl_loop_first (E : Host) (clientid username topic : String) (fuel : Nat) (res : Nat)
    (st : Option Stmt) (db : Db) :
    ∃ rc tl, (acl_loop E clientid username topic (fuel + 1) .defer res st db).2.2.2.log
      = db.log ++ .step .acl rc :: tl := by
  rw [acl_loop]
  simp only [if_true]
  by_cases hrow : (sqlite3_step db .acl st).1 = SQLITE_ROW
  · simp only [hrow, if_true]
    obtain ⟨rev, hrev, -⟩ := acl_row_log E clientid username topic
      (sqlite3_step db .acl st).2.1 .defer (sqlite3_step db .acl st).2.2.2
    obtain ⟨ev, hev, -⟩ := acl_loop_trace E clientid username topic fuel
      (acl_row E clientid username topic (sqlite3_step db .acl st).2.1 .defer
        (sqlite3_step db .acl st).2.2.2).1 SQLITE_ROW (sqlite3_step db .acl st).2.2.1
      (acl_row E clientid username topic (sqlite3_step db .acl st).2.1 .defer
        (sqlite3_step db .acl st).2.2.2).2 (by decide)
    exact ⟨SQLITE_ROW, rev ++ ev, by rw [hev, hrev, sqlite3_step_log, hrow]; simp⟩
  · simp only [hrow, if_false]
    exact ⟨(sqlite3_step db .acl st).1, [], by simp⟩

/-- A `be_sqlite_aclcheck` call on an instance with an ACL handle in which
nothing fails: the statement is prepared if absent, reset, cleared, bound and
stepped; and when no step returns the error status either, the verdict is not
Error and the statement is live afterwards. -/
theorem aclcheck_clean_run (E : Host) (conf : sqlite_backend) (acl : stmt_query) (db : Db)
    (clientid username topic : String) (acc : Int)
    (hacl : conf.acl = some acl) (hok : db.NoFailure) :
    (∃ rc tl, (be_sqlite_aclcheck E (some conf) db clientid username topic acc).db.log
      = db.log ++ openingCalls .acl acl username ++
          .bind_int .acl 2 acc :: .step .acl rc :: tl) ∧
    (db.NoStepError →
      (be_sqlite_aclcheck E (some conf) db clientid username topic acc).result ≠ .error ∧
      token .acl (be_sqlite_aclcheck E (some conf) db clientid username topic acc).handle
        ≠ none) := by
  obtain ⟨d, s0, q, hn, hst, hlog, heq⟩ :=
    aclcheck_reaches_loop E conf acl db clientid username topic acc hacl hok
  obtain ⟨rc, tl, hfirst⟩ := acl_loop_first E clientid username topic db.steps.length
    SQLITE_OK (some s0) d
  constructor
  · rw [heq]
    split
    · refine ⟨rc, tl ++ [.finalize .acl, .reset .acl], ?_⟩
      simp [hfirst, hlog]
    · refine ⟨rc, tl ++ [.reset .acl], ?_⟩
      simp [hfirst, hlog]
  · intro hne
    obtain ⟨c1, -, -, c4⟩ := acl_loop_clean E clientid username topic
      (db.steps.length + 1) .defer SQLITE_OK (some s0) d (by decide)
      (noStepError_same hne hst) (by simp)
    rw [if_neg c1] at heq
    rw [heq]
    constructor
    · rw [acl_out_result]
      rcases acl_loop_verdict E clientid username topic (db.steps.length + 1) .defer SQLITE_OK
        (some s0) d with h | h <;> rw [h] <;> decide
    · rw [acl_out_handle, token_acl_eq]
      simp only [ne_eq, sqlite3_reset_eq_none]
      exact c4

/-! ## The claims -/

/-- C1: on an instance whose ACL handle is absent, which is what
`be_sqlite_init` builds when it is given no `sqliteaclquery`,
`be_sqlite_aclcheck` returns Allow for every clientid, username, topic and
access value, and leaves the instance and the engine as they were: no prepare,
bind, step or reset is made. -/
theorem aclcheck_allows_without_acl_handle :
    (∀ (dbpath userquery : Option String) (db : Db) (conf : sqlite_backend),
      (be_sqlite_init dbpath userquery none db).1 = some conf → conf.acl = none) ∧
    (∀ (E : Host) (conf : sqlite_backend) (db : Db) (clientid username topic : String)
      (acc : Int), conf.acl = none →
      be_sqlite_aclcheck E (some conf) db clientid username topic acc
        = { result := .allow, handle := some conf, db := db }) := by
  constructor
  · intro dbpath userquery db conf h
    unfold be_sqlite_init at h
    cases dbpath with
    | none => simp at h
    | some path =>
      cases userquery with
      | none => simp at h
      | some uq =>
        simp only at h
        split at h
        · simp at h
        · simp at h
          rw [← h]
  · intro E conf db clientid username topic acc h
    simp [be_sqlite_aclcheck, h]

/-- Scenario for C1: the instance built without an ACL query allows a request
and leaves the engine untouched. -/
theorem aclcheck_allows_without_acl_handle_witness :
    (be_sqlite_init (some "auth.db") (some demoUserQuery) none (demoDb [])).1
      = some demoConfNoAcl ∧
    demoConfNoAcl.acl = none ∧
    be_sqlite_aclcheck demoHost (some demoConfNoAcl) (demoDb []) "c1" "alice" "sensors/temp" 1
      = { result := .allow, handle := some demoConfNoAcl, db := demoDb [] } :=
  ⟨by decide, rfl,
    aclcheck_allows_without_acl_handle.2 demoHost demoConfNoAcl (demoDb []) "c1" "alice"
      "sensors/temp" 1 rfl⟩

/-- Counterexample to C2 as stated: on a null instance `be_sqlite_getuser`
returns Defer without writing the out hash, so a caller that passed a non-null
`*phash` still has it afterwards. -/
theorem null_instance_stale_hash :
    (be_sqlite_getuser none (demoDb []) "alice" "secret" (some "stale") "c1").result = .defer ∧
    (be_sqlite_getuser none (demoDb []) "alice" "secret" (some "stale") "c1").phash
      ≠ none := by
  decide

/-- C2 (amended): `be_sqlite_aclcheck` on a null instance returns Defer, and
`be_sqlite_getuser` on a null instance, or on an instance whose user handle is
absent, returns Defer; none of them calls the engine, and `be_sqlite_getuser`
does not write the out hash: `*phash` keeps the value the caller put there. -/
theorem null_instance_defers :
    (∀ (E : Host) (db : Db) (clientid username topic : String) (acc : Int),
      be_sqlite_aclcheck E none db clientid username topic acc
        = { result := .defer, handle := none, db := db }) ∧
    (∀ (db : Db) (username password : String) (phash : Option String) (clientid : String),
      be_sqlite_getuser none db username password phash clientid
        = { result := .defer, phash := phash, handle := none, db := db }) ∧
    (∀ (conf : sqlite_backend) (db : Db) (username password : String) (phash : Option String)
      (clientid : String), conf.user = none →
      be_sqlite_getuser (some conf) db username password phash clientid
        = { result := .defer, phash := phash, handle := some conf, db := db }) := by
  refine ⟨fun _ _ _ _ _ _ => rfl, fun _ _ _ _ _ => rfl, ?_⟩
  intro conf db username password phash clientid h
  simp [be_sqlite_getuser, h]

/-- Scenario for C2: an instance without user handle defers and leaves the out
hash as it was. -/
theorem null_instance_defers_witness :
    ({ user := none, acl := none } : sqlite_backend).user = none ∧
    be_sqlite_getuser (some { user := none, acl := none }) (demoDb []) "alice" "secret" none "c1"
      = { result := .defer, phash := none, handle := some { user := none, acl := none },
          db := demoDb [] } :=
  ⟨rfl, null_instance_defers.2.2 { user := none, acl := none } (demoDb []) "alice" "secret" none
    "c1" rfl⟩

/-- C3: when nothing fails and the statement yields the rows `rows` and then a
status that is neither a row nor the error status, the verdict of
`be_sqlite_aclcheck` is Allow exactly when some row has a non-null column 0
whose expansion is non-empty and matches the request topic, and Defer
otherwise; rows that are null or expand to the empty string (no rows at all
included) give Defer, and inserting or removing a row whose expansion is empty
anywhere in the sequence does not change the verdict. -/
theorem aclcheck_verdict (E : Host) (conf : sqlite_backend) (acl : stmt_query)
    (db : Db) (clientid username topic : String) (acc : Int)
    (rows : List (Option String)) (tail : List (Nat × Option String))
    (hacl : conf.acl = some acl) (hok : db.NoFailure)
    (hsteps : db.steps = asRows rows ++ tail)
    (hrow : (tail.headD (SQLITE_DONE, none)).1 ≠ SQLITE_ROW)
    (herr : (tail.headD (SQLITE_DONE, none)).1 ≠ SQLITE_ERROR) :
    ((be_sqlite_aclcheck E (some conf) db clientid username topic acc).result = .allow ↔
      ∃ col ∈ rows, rowAllows E clientid username topic col = true) ∧
    ((be_sqlite_aclcheck E (some conf) db clientid username topic acc).result ≠ .allow →
      (be_sqlite_aclcheck E (some conf) db clientid username topic acc).result = .defer) ∧
    ((∀ col ∈ rows, col = none ∨ expandsToEmpty E clientid username col = true) →
      (be_sqlite_aclcheck E (some conf) db clientid username topic acc).result = .defer) ∧
    (∀ (l1 l2 : List (Option String)) (col : Option String) (db2 : Db),
      rows = l1 ++ l2 → expandsToEmpty E clientid username col = true →
      db2.NoFailure → db2.steps = asRows (l1 ++ col :: l2) ++ tail →
      (be_sqlite_aclcheck E (some conf) db2 clientid username topic acc).result
        = (be_sqlite_aclcheck E (some conf) db clientid username topic acc).result) ∧
    (∀ (l1 l2 : List (Option String)) (col : Option String) (db2 : Db),
      rows = l1 ++ col :: l2 → expandsToEmpty E clientid username col = true →
      db2.NoFailure → db2.steps = asRows (l1 ++ l2) ++ tail →
      (be_sqlite_aclcheck E (some conf) db2 clientid username topic acc).result
        = (be_sqlite_aclcheck E (some conf) db clientid username topic acc).result) := by
  have hres := aclcheck_result_eq E conf acl db clientid username topic acc rows tail hacl hok
    hsteps hrow herr
  refine ⟨?_, ?_, ?_, ?_, ?_⟩
  · rw [hres]
    by_cases hany : rows.any (rowAllows E clientid username topic) = true
    · simp only [hany, if_true, true_iff]
      exact List.any_eq_true.1 hany
    · simp only [hany, if_false]
      constructor
      · intro h; cases h
      · intro h; exact absurd (List.any_eq_true.2 h) hany
  · rw [hres]
    by_cases hany : rows.any (rowAllows E clientid username topic) = true <;> simp [hany]
  · intro hall
    rw [hres]
    have hany : ¬ rows.any (rowAllows E clientid username topic) = true := by
      intro h
      obtain ⟨col, hmem, hcol⟩ := List.any_eq_true.1 h
      rcases hall col hmem with rfl | he
      · simp [rowAllows] at hcol
      · rw [rowAllows_of_expandsToEmpty E clientid username topic col he] at hcol
        cases hcol
    simp [hany]
  · intro l1 l2 col db2 hsplit hempty hok2 hsteps2
    rw [hres, aclcheck_result_eq E conf acl db2 clientid username topic acc (l1 ++ col :: l2) tail
      hacl hok2 hsteps2 hrow herr, hsplit]
    simp [List.any_append, rowAllows_of_expandsToEmpty E clientid username topic col hempty]
  · intro l1 l2 col db2 hsplit hempty hok2 hsteps2
    rw [hres, aclcheck_result_eq E conf acl db2 clientid username topic acc (l1 ++ l2) tail
      hacl hok2 hsteps2 hrow herr, hsplit]
    simp [List.any_append, rowAllows_of_expandsToEmpty E clientid username topic col hempty]

/-- Scenario S6 for C3: a single row whose column 0 is the empty string gives
Defer. -/
theorem aclcheck_verdict_witness :
    (demoDb (asRows [some ""])).NoFailure ∧
    (be_sqlite_aclcheck demoHost (some demoConf) (demoDb (asRows [some ""])) "c1" "alice"
      "sensors/temp" 1).result = .defer :=
  ⟨by decide,
    (aclcheck_verdict demoHost demoConf demoAcl (demoDb (asRows [some ""])) "c1" "alice"
      "sensors/temp" 1 [some ""] [] rfl (by decide) (by decide) (by decide) (by decide)).2.2.1
      (by decide)⟩

/-- C4: first match wins.  When nothing fails, the rows `pre` do not allow and
the next row `p` does, `be_sqlite_aclcheck` returns Allow after exactly
`pre.length + 1` steps; the step results after that row are still in the
engine's queue, and the calls made are those of the rows up to `p` only: no
later row is stepped, expanded or matched. -/
theorem aclcheck_first_match_wins (E : Host) (conf : sqlite_backend) (acl : stmt_query)
    (db : Db) (clientid username topic : String) (acc : Int)
    (pre : List (Option String)) (p : Option String) (rest : List (Nat × Option String))
    (hacl : conf.acl = some acl) (hok : db.NoFailure)
    (hsteps : db.steps = asRows pre ++ (SQLITE_ROW, p) :: rest)
    (hpre : ∀ x ∈ pre, rowAllows E clientid username topic x = false)
    (hp : rowAllows E clientid username topic p = true) :
    (be_sqlite_aclcheck E (some conf) db clientid username topic acc).result = .allow ∧
    (be_sqlite_aclcheck E (some conf) db clientid username topic acc).db.steps = rest ∧
    (be_sqlite_aclcheck E (some conf) db clientid username topic acc).db.log
      = db.log ++ openingCalls .acl acl username ++ [.bind_int .acl 2 acc] ++
          (pre ++ [p]).flatMap (rowCalls E clientid username topic) ++ [.reset .acl] ∧
    stepCalls .acl (be_sqlite_aclcheck E (some conf) db clientid username topic acc).db.log
      = stepCalls .acl db.log + (pre.length + 1) :=
  aclcheck_allow_at_first_match E conf acl db clientid username topic acc pre p rest hacl hok
    hsteps hpre hp

/-- Scenario for C4: rows p1, p2, p3 with the matcher true for p2; the call
allows after two steps and p3 stays in the queue. -/
theorem aclcheck_first_match_wins_witness :
    (be_sqlite_aclcheck demoHost (some demoConf)
      (demoDb (asRows [some "p1", some "p2", some "p3"])) "c1" "alice" "p2" 1).result = .allow ∧
    (be_sqlite_aclcheck demoHost (some demoConf)
      (demoDb (asRows [some "p1", some "p2", some "p3"])) "c1" "alice" "p2" 1).db.steps
      = [(SQLITE_ROW, some "p3")] ∧
    stepCalls .acl (be_sqlite_aclcheck demoHost (some demoConf)
      (demoDb (asRows [some "p1", some "p2", some "p3"])) "c1" "alice" "p2" 1).db.log = 2 :=
  have h := aclcheck_first_match_wins demoHost demoConf demoAcl
    (demoDb (asRows [some "p1", some "p2", some "p3"])) "c1" "alice" "p2" 1
    [some "p1"] (some "p2") [(SQLITE_ROW, some "p3")] rfl (by decide) (by decide) (by decide)
    (by decide)
  ⟨h.1, h.2.1, h.2.2.2⟩

/-- C5: when nothing fails and the first step returns a row whose column 0 is
`h`, `be_sqlite_getuser` returns Defer with `h` as out hash, after exactly one
step (the later step results stay in the queue), having bound the username to
parameter 1. -/
theorem getuser_first_row_hash (conf : sqlite_backend) (user : stmt_query) (db : Db)
    (username password clientid h : String) (phash : Option String)
    (rest : List (Nat × Option String))
    (hu : conf.user = some user) (hok : db.NoFailure)
    (hrow : db.steps = (SQLITE_ROW, some h) :: rest) :
    (be_sqlite_getuser (some conf) db username password phash clientid).result = .defer ∧
    (be_sqlite_getuser (some conf) db username password phash clientid).phash = some h ∧
    (be_sqlite_getuser (some conf) db username password phash clientid).db.steps = rest ∧
    stepCalls .user (be_sqlite_getuser (some conf) db username password phash clientid).db.log
      = stepCalls .user db.log + 1 ∧
    (be_sqlite_getuser (some conf) db username password phash clientid).db.log
      = db.log ++ openingCalls .user user username ++
        [.step .user SQLITE_ROW, .column_text .user 0, .reset .user] ∧
    Call.bind_text .user 1 username ∈ openingCalls .user user username := by
  obtain ⟨h1, h2, h3, h4, h5⟩ :=
    getuser_row_run conf user db username password clientid h phash rest hu hok hrow
  refine ⟨h1, h2, h3, h5, h4, ?_⟩
  simp [openingCalls]

/-- Scenario S1 for C5: alice has the stored hash H1. -/
theorem getuser_first_row_hash_witness :
    (be_sqlite_getuser (some demoConf) (demoDb [(SQLITE_ROW, some "H1")]) "alice" "secret" none
      "c1").result = .defer ∧
    (be_sqlite_getuser (some demoConf) (demoDb [(SQLITE_ROW, some "H1")]) "alice" "secret" none
      "c1").phash = some "H1" :=
  have h := getuser_first_row_hash demoConf demoUser (demoDb [(SQLITE_ROW, some "H1")])
    "alice" "secret" "c1" "H1" none [] rfl (by decide) rfl
  ⟨h.1, h.2.1⟩

/-- C6 (what the code does): when nothing fails and every step returns a status
that is neither a row nor the error status, `be_sqlite_getuser` returns Defer
with a null out hash after exactly 4 step attempts, not 5: the loop condition
`--retries > 0` decrements before it tests. -/
theorem getuser_transient_attempts (conf : sqlite_backend) (user : stmt_query) (db : Db)
    (username password : String) (phash : Option String) (clientid : String)
    (hu : conf.user = some user) (hok : db.NoFailure) (htr : db.OnlyTransient) :
    (be_sqlite_getuser (some conf) db username password phash clientid).result = .defer ∧
    (be_sqlite_getuser (some conf) db username password phash clientid).phash = none ∧
    stepCalls .user (be_sqlite_getuser (some conf) db username password phash clientid).db.log
      = stepCalls .user db.log + 4 := by
  obtain ⟨user1, d, hloop, hcount⟩ := getuser_loop_transient username 4 .defer user db hok htr
  have heq : be_sqlite_getuser (some conf) db username password phash clientid
      = getuser_out conf phash (.out .defer none user1 d) := by
    simp [be_sqlite_getuser, hu, hloop]
  rw [heq]
  refine ⟨rfl, rfl, ?_⟩
  rw [getuser_out_out_log, stepCalls_append, hcount]
  simp [stepCalls, isStep]

/-- Scenario S2 for C6: no row for bob; the statement is stepped 4 times. -/
theorem getuser_transient_attempts_witness :
    (be_sqlite_getuser (some demoConf) (demoDb []) "bob" "secret" none "c1").result = .defer ∧
    (be_sqlite_getuser (some demoConf) (demoDb []) "bob" "secret" none "c1").phash = none ∧
    stepCalls .user (be_sqlite_getuser (some demoConf) (demoDb []) "bob" "secret" none
      "c1").db.log = 4 :=
  getuser_transient_attempts demoConf demoUser (demoDb []) "bob" "secret" none "c1" rfl
    (by decide) (by decide)

/-- C8: in `be_sqlite_aclcheck`, if a step of the call returns `SQLITE_ERROR`,
the call returns Error, that step is followed by the finalize of the statement
and the closing reset and by nothing else, the parsed token is absent on
return, and the next `be_sqlite_aclcheck` call on the instance starts with a
prepare of the same query, whatever the engine then answers.  When nothing
fails in that next call, the prepare is followed by the reset, the
clear-bindings, the two binds and a step on the new statement, and when no
step fails either the call does not return Error and the handle has its
statement back. -/
theorem aclcheck_step_error (E : Host) (conf : sqlite_backend) (acl : stmt_query) (db : Db)
    (clientid username topic : String) (acc : Int) (new : List Call)
    (hacl : conf.acl = some acl)
    (hlog : (be_sqlite_aclcheck E (some conf) db clientid username topic acc).db.log
      = db.log ++ new)
    (herr : Call.step .acl SQLITE_ERROR ∈ new) :
    (be_sqlite_aclcheck E (some conf) db clientid username topic acc).result = .error ∧
    token .acl (be_sqlite_aclcheck E (some conf) db clientid username topic acc).handle = none ∧
    (∃ pre, new = pre ++ [.step .acl SQLITE_ERROR, .finalize .acl, .reset .acl]) ∧
    (∀ (db2 : Db) (clientid2 username2 topic2 : String) (acc2 : Int),
      ∃ tl, (be_sqlite_aclcheck E
          (be_sqlite_aclcheck E (some conf) db clientid username topic acc).handle
          db2 clientid2 username2 topic2 acc2).db.log
        = db2.log ++ .prepare .acl acl.query acl.query_length :: tl) ∧
    (∀ (db2 : Db) (clientid2 username2 topic2 : String) (acc2 : Int), db2.NoFailure →
      (∃ rc tl, (be_sqlite_aclcheck E
          (be_sqlite_aclcheck E (some conf) db clientid username topic acc).handle
          db2 clientid2 username2 topic2 acc2).db.log
        = db2.log ++ .prepare .acl acl.query acl.query_length :: .reset .acl ::
            .clear_bindings .acl :: .bind_text .acl 1 username2 :: .bind_int .acl 2 acc2 ::
            .step .acl rc :: tl) ∧
      (db2.NoStepError →
        (be_sqlite_aclcheck E
          (be_sqlite_aclcheck E (some conf) db clientid username topic acc).handle
          db2 clientid2 username2 topic2 acc2).result ≠ .error ∧
        token .acl (be_sqlite_aclcheck E
          (be_sqlite_aclcheck E (some conf) db clientid username topic acc).handle
          db2 clientid2 username2 topic2 acc2).handle ≠ none)) := by
  obtain ⟨ev, q, h1, h2, h3, h4, -, -, -, h8⟩ :=
    aclcheck_trace E conf acl db clientid username topic acc hacl
  have hev : ev = new := by
    rw [h1] at hlog
    exact List.append_cancel_left hlog
  rw [hev] at h8
  obtain ⟨hres, hnone, hpre⟩ := h8 herr
  rw [h2, token_acl_eq]
  refine ⟨hres, hnone, hpre, ?_, ?_⟩
  · intro db2 clientid2 username2 topic2 acc2
    obtain ⟨ev2, q2, g1, -, -, -, -, g6, -⟩ :=
      aclcheck_trace E { conf with acl := some q } q db2 clientid2 username2 topic2 acc2 rfl
    obtain ⟨tl, htl⟩ := g6 hnone
    exact ⟨tl, by rw [g1, htl, h3, h4]⟩
  · intro db2 clientid2 username2 topic2 acc2 hok
    obtain ⟨⟨rc, tl, hrun⟩, hlive⟩ := aclcheck_clean_run E { conf with acl := some q } q db2
      clientid2 username2 topic2 acc2 rfl hok
    refine ⟨⟨rc, tl, ?_⟩, hlive⟩
    rw [hrun]
    simp [openingCalls, hnone, h3, h4]

/-- Scenario for C8: one row that does not match, then a step error. -/
theorem aclcheck_step_error_witness :
    (be_sqlite_aclcheck demoHost (some demoConf)
      (demoDb [(SQLITE_ROW, some "a/b"), (SQLITE_ERROR, none)]) "c1" "alice" "sensors/temp"
      1).result = .error ∧
    token .acl (be_sqlite_aclcheck demoHost (some demoConf)
      (demoDb [(SQLITE_ROW, some "a/b"), (SQLITE_ERROR, none)]) "c1" "alice" "sensors/temp"
      1).handle = none :=
  have h := aclcheck_step_error demoHost demoConf demoAcl
    (demoDb [(SQLITE_ROW, some "a/b"), (SQLITE_ERROR, none)]) "c1" "alice" "sensors/temp" 1
    [.reset .acl, .clear_bindings .acl, .bind_text .acl 1 "alice", .bind_int .acl 2 1,
      .step .acl SQLITE_ROW, .column_text .acl 0, .t_expand "c1" "alice" "a/b",
      .topic_matches_sub "a/b" "sensors/temp", .step .acl SQLITE_ERROR, .finalize .acl,
      .reset .acl]
    rfl (by decide) (by decide)
  ⟨h.1, h.2.1⟩

end BeSqlite
